import Mathlib

/-!
Verification development for the hihat-a lock-free hash table
(src/src/hihat-a.c).  The C code is embedded shallowly for sequential
executions: every compare-and-swap (LCAS) is performed by the single
running thread against a value it has just read, so it succeeds, and
pointer aliasing between the top-level table and the current store is
made explicit by threading the updated store through the top-level
state.  Machine integers (uint64_t) are modelled as Nat, with an
explicit mod 2^64 where the C code can wrap.  The recursive
migrate-and-retry control flow of put / replace / add / remove is made
total with an explicit fuel argument; fuel exhaustion returns none,
and a returned some value corresponds exactly to a terminating
sequential C execution.
-/

set_option maxRecDepth 4096
set_option linter.unusedVariables false

/-- Size of a 64 bit machine word, used where uint64_t arithmetic can wrap. -/
def U64 : Nat := 2 ^ 64

/-- Modelled from the spec (the header hihat.h is not part of the sources):
info bit 62 is the MOVING flag, set when migration of the bucket has begun. -/
def HIHAT_F_MOVING : Nat := 2 ^ 62

/-- Modelled from the spec (the header hihat.h is not part of the sources):
info bit 63 is the MOVED flag, set when the bucket has been migrated. -/
def HIHAT_F_MOVED : Nat := 2 ^ 63

/-- Modelled from the spec (the header hihat.h is not part of the sources):
info bits 0..61 hold the insertion epoch; zero means no live value. -/
def HIHAT_EPOCH_MASK : Nat := 2 ^ 62 - 1

/-- Modelled from the spec (hatrack_common.h is not part of the sources):
the minimum store size, a power of two; scenario S4 of the spec fixes it
at 64. -/
def HATRACK_MIN_SIZE : Nat := 64

/-- Record stored in one bucket: an item pointer (0 models NULL) and the
info word (epoch bits plus MOVING / MOVED flags). -/
structure hihat_record_t where
  item : Nat
  info : Nat
deriving DecidableEq, Inhabited, Repr

/-- One bucket: the install-once hash slot (0 models the unreserved,
all-zero hash) and the record. -/
structure hihat_bucket_t where
  hv : Nat
  record : hihat_record_t
deriving DecidableEq, Inhabited, Repr

/-- One store generation.  The store_next forwarding pointer is always
null in a sequential execution (it is installed and consumed within a
single call to hihat_a_store_migrate), so it is not carried as a field. -/
structure hihat_store_t where
  last_slot : Nat
  threshold : Nat
  used_count : Nat
  buckets : List hihat_bucket_t
deriving DecidableEq, Inhabited, Repr

/-- Top-level table state: current store, item count and epoch counter. -/
structure hihat_t where
  store_current : hihat_store_t
  item_count : Nat
  next_epoch : Nat
deriving DecidableEq, Inhabited, Repr

/-- Modelled from the spec (hatrack_common.h is not part of the sources):
the probe start index hash_to_index(hv, last_slot); consistent with the
probe step (bix + 1) and last_slot used by the source, it is the hash
masked to the table size. -/
def hatrack_bucket_index (hv last_slot : Nat) : Nat := hv &&& last_slot

/-- Modelled from the spec (hatrack_common.h is not part of the sources):
threshold = ceil(0.75 * size), computed as size - size / 4. -/
def hatrack_compute_table_threshold (size : Nat) : Nat := size - size / 4

/-- Doubling loop used by hatrack_new_size; the fuel num + 1 always
suffices because the threshold strictly increases with each doubling. -/
def hatrack_new_size_go (size num : Nat) : Nat → Nat
  | 0 => size
  | Nat.succ fuel =>
    if num ≤ hatrack_compute_table_threshold size then size
    else hatrack_new_size_go (2 * size) num fuel

/-- Modelled from the spec (hatrack_common.h is not part of the sources):
the new store size is the smallest power of two, at least
HATRACK_MIN_SIZE, whose threshold covers the number of live buckets. -/
def hatrack_new_size (last_slot num : Nat) : Nat :=
  hatrack_new_size_go HATRACK_MIN_SIZE num (num + 1)

/-- Mirrors hihat_a_store_new: a freshly allocated store is zero filled
(mmm_alloc_committed returns zeroed memory), with last_slot and
threshold initialised from the requested size. -/
def hihat_a_store_new (size : Nat) : hihat_store_t :=
  { last_slot := size - 1
    threshold := hatrack_compute_table_threshold size
    used_count := 0
    buckets := List.replicate size default }

/-- Probe loop shared verbatim by hihat_a_store_get, hihat_a_store_replace
and hihat_a_store_remove (lines 250-261, 385-396, 526-537 of hihat-a.c):
walk from bix for at most last_slot + 1 steps; stop with none at the first
unreserved hash slot, with some bix at the first slot holding hv1
(hatrack_bucket_unreserved is the all-zero test, hatrack_hashes_eq is
bit equality, both per the spec since hatrack_common.h is not in the
sources). -/
def hihat_probe_ro (self : hihat_store_t) (hv1 : Nat) : Nat → Nat → Option Nat
  | 0, _ => none
  | Nat.succ n, bix =>
    let hv2 := (self.buckets.getD bix default).hv
    if hv2 = 0 then none
    else if hv2 ≠ hv1 then hihat_probe_ro self hv1 n ((bix + 1) &&& self.last_slot)
    else some bix

/-- Result of the claiming probe loop of put and add: either a bucket was
found (with the possibly updated store), or the operation must migrate. -/
inductive hihat_claim_t where
  | found (st : hihat_store_t) (bix : Nat)
  | migrate (st : hihat_store_t)
deriving DecidableEq, Repr

/-- Probe loop shared verbatim by hihat_a_store_put and hihat_a_store_add
(lines 300-321 and 457-478 of hihat-a.c): at an unreserved slot the CAS
from unreserved to hv1 succeeds (sequential execution); the following
fetch_add returns the old used_count, and if that is already at the
threshold the freshly claimed slot is abandoned and the operation
migrates.  A full pass without a find also migrates. -/
def hihat_probe_claim (self : hihat_store_t) (hv1 : Nat) : Nat → Nat → hihat_claim_t
  | 0, _ => .migrate self
  | Nat.succ n, bix =>
    let bucket := self.buckets.getD bix default
    let hv2 := bucket.hv
    if hv2 = 0 then
      let st : hihat_store_t :=
        { self with
          buckets := self.buckets.set bix { bucket with hv := hv1 }
          used_count := self.used_count + 1 }
      if self.used_count ≥ self.threshold then .migrate st else .found st bix
    else if hv2 ≠ hv1 then hihat_probe_claim self hv1 n ((bix + 1) &&& self.last_slot)
    else .found self bix

/-- Mirrors hihat_a_store_get (lines 237-280): probe for the hash; on a
miss or on a record without epoch bits return (NULL, false), otherwise
the item with found = true.  The store is not modified. -/
def hihat_a_store_get (self : hihat_store_t) (hv1 : Nat) : Nat × Bool :=
  match hihat_probe_ro self hv1 (self.last_slot + 1)
      (hatrack_bucket_index hv1 self.last_slot) with
  | none => (0, false)
  | some bix =>
    let record := (self.buckets.getD bix default).record
    if record.info &&& HIHAT_EPOCH_MASK ≠ 0 then (record.item, true)
    else (0, false)

/-- Inner probe loop of the migration copy phase (lines 747-765): claim
or recognise the hash slot for hv in the new store.  When the loop
exhausts without a break, C leaves new_bucket at the last probed slot;
this branch is unreachable in a sequential migration because the new
store always has room for every live hash. -/
def hihat_migrate_probe (ns : hihat_store_t) (hv : Nat) : Nat → Nat → hihat_store_t × Nat
  | 0, bix => (ns, bix)
  | Nat.succ n, bix =>
    let new_bucket := ns.buckets.getD bix default
    let expected_hv := new_bucket.hv
    if expected_hv = 0 then
      ({ ns with buckets := ns.buckets.set bix { new_bucket with hv := hv } }, bix)
    else if expected_hv ≠ hv then
      if n = 0 then (ns, bix)
      else hihat_migrate_probe ns hv n ((bix + 1) &&& ns.last_slot)
    else (ns, bix)

/-- Freeze phase of hihat_a_store_migrate (lines 673-696): set MOVING on
every bucket (adding MOVED on buckets without a record), counting the
buckets whose pre-freeze record carries epoch bits.  Iterates over
buckets i, i+1, ... for n steps. -/
def hihat_migrate_freeze (s : hihat_store_t) (new_used i : Nat) : Nat → hihat_store_t × Nat
  | 0 => (s, new_used)
  | Nat.succ n =>
    let bucket := s.buckets.getD i default
    let record := bucket.record
    let s2 :=
      if record.info &&& HIHAT_F_MOVING ≠ 0 then s
      else
        let candidate_info :=
          if record.info ≠ 0 then record.info ||| HIHAT_F_MOVING
          else HIHAT_F_MOVING ||| HIHAT_F_MOVED
        { s with buckets :=
            s.buckets.set i { bucket with record := { item := record.item, info := candidate_info } } }
    let new_used2 := if record.info &&& HIHAT_EPOCH_MASK ≠ 0 then new_used + 1 else new_used
    hihat_migrate_freeze s2 new_used2 (i + 1) n

/-- Copy phase of hihat_a_store_migrate (lines 729-780): re-count the
live buckets, and move every bucket not yet marked MOVED into the new
store (hash slot via the inner probe, then install the record stripped
to its epoch bits, then mark the source bucket MOVED).  Both record
CASes succeed in a sequential execution; the record install is guarded
by the new slot still being empty, exactly as the CAS from (NULL, 0). -/
def hihat_migrate_copy (s ns : hihat_store_t) (new_used i : Nat) :
    Nat → hihat_store_t × hihat_store_t × Nat
  | 0 => (s, ns, new_used)
  | Nat.succ n =>
    let bucket := s.buckets.getD i default
    let record := bucket.record
    let new_used2 := if record.info &&& HIHAT_EPOCH_MASK ≠ 0 then new_used + 1 else new_used
    if record.info &&& HIHAT_F_MOVED ≠ 0 then
      hihat_migrate_copy s ns new_used2 (i + 1) n
    else
      let hv := bucket.hv
      let pr := hihat_migrate_probe ns hv (ns.last_slot + 1) (hatrack_bucket_index hv ns.last_slot)
      let ns2 := pr.1
      let j := pr.2
      let new_bucket := ns2.buckets.getD j default
      let candidate_record : hihat_record_t :=
        { item := record.item, info := record.info &&& HIHAT_EPOCH_MASK }
      let ns3 :=
        if new_bucket.record = { item := 0, info := 0 } then
          { ns2 with buckets := ns2.buckets.set j { new_bucket with record := candidate_record } }
        else ns2
      let moved_bucket : hihat_bucket_t :=
        { bucket with record := { item := record.item, info := record.info ||| HIHAT_F_MOVED } }
      let s2 := { s with buckets := s.buckets.set i moved_bucket }
      hihat_migrate_copy s2 ns3 new_used2 (i + 1) n

/-- Mirrors hihat_a_store_migrate (lines 605-794) for a sequential
execution.  The early return when another thread already swapped the
top store keeps the pointer comparison of the source; the store_next
sleep path (lines 646-671) is unreachable sequentially because no
concurrent migrator can have installed a forwarding pointer, and the
CAS installing the candidate store into store_next succeeds.  The final
CAS of top.store_current from self succeeds for the same reason, and
the function returns the published store. -/
def hihat_a_store_migrate (self : hihat_store_t) (top : hihat_t) : hihat_store_t × hihat_t :=
  let new_store := top.store_current
  if new_store ≠ self then (new_store, top)
  else
    let fz := hihat_migrate_freeze self 0 0 (self.last_slot + 1)
    let self1 := fz.1
    let new_used := fz.2
    let new_size := hatrack_new_size self1.last_slot new_used
    let candidate_store := hihat_a_store_new new_size
    let cp := hihat_migrate_copy self1 candidate_store 0 0 (self1.last_slot + 1)
    let new_store2 := cp.2.1
    let new_used2 := cp.2.2
    let new_store3 :=
      if new_store2.used_count = 0 then { new_store2 with used_count := new_used2 }
      else new_store2
    (new_store3, { top with store_current := new_store3 })

/-- Mirrors hihat_a_store_put (lines 282-366).  The fuel bounds the
number of migrate-and-retry rounds; none models a sequential execution
that exceeds the fuel.  All three CASes of the source succeed
sequentially: the bucket claim and the threshold check live in
hihat_probe_claim, and the record install never fails because the
record was read by the same thread with no interference. -/
def hihat_a_store_put (fuel : Nat) (self : hihat_store_t) (top : hihat_t)
    (hv1 item : Nat) : Option (Nat × Bool × hihat_t) :=
  match fuel with
  | 0 => none
  | Nat.succ fuel =>
    match hihat_probe_claim self hv1 (self.last_slot + 1)
        (hatrack_bucket_index hv1 self.last_slot) with
    | .migrate st =>
      let m := hihat_a_store_migrate st { top with store_current := st }
      hihat_a_store_put fuel m.1 m.2 hv1 item
    | .found st bix =>
      let top1 : hihat_t := { top with store_current := st }
      let bucket := st.buckets.getD bix default
      let record := bucket.record
      if record.info &&& HIHAT_F_MOVING ≠ 0 then
        let m := hihat_a_store_migrate st top1
        hihat_a_store_put fuel m.1 m.2 hv1 item
      else
        let old_item := if record.info &&& HIHAT_EPOCH_MASK ≠ 0 then record.item else 0
        let new_item := ¬ record.info &&& HIHAT_EPOCH_MASK ≠ 0
        let candidate_info :=
          if record.info &&& HIHAT_EPOCH_MASK ≠ 0 then record.info else top1.next_epoch
        let top2 : hihat_t :=
          if record.info &&& HIHAT_EPOCH_MASK ≠ 0 then top1
          else { top1 with next_epoch := (top1.next_epoch + 1) % U64 }
        let candidate : hihat_record_t := { item := item, info := candidate_info }
        let st2 : hihat_store_t :=
          { st with buckets := st.buckets.set bix { bucket with record := candidate } }
        let top3 : hihat_t := { top2 with store_current := st2 }
        let top4 : hihat_t :=
          if new_item then { top3 with item_count := (top3.item_count + 1) % U64 }
          else top3
        some (old_item, decide (¬ new_item), top4)

/-- Mirrors hihat_a_store_add (lines 442-508): like put, but fails with
false on any bucket whose record info is non-zero, and consumes an
epoch and bumps item_count only on success. -/
def hihat_a_store_add (fuel : Nat) (self : hihat_store_t) (top : hihat_t)
    (hv1 item : Nat) : Option (Bool × hihat_t) :=
  match fuel with
  | 0 => none
  | Nat.succ fuel =>
    match hihat_probe_claim self hv1 (self.last_slot + 1)
        (hatrack_bucket_index hv1 self.last_slot) with
    | .migrate st =>
      let m := hihat_a_store_migrate st { top with store_current := st }
      hihat_a_store_add fuel m.1 m.2 hv1 item
    | .found st bix =>
      let top1 : hihat_t := { top with store_current := st }
      let bucket := st.buckets.getD bix default
      let record := bucket.record
      if record.info &&& HIHAT_F_MOVING ≠ 0 then
        let m := hihat_a_store_migrate st top1
        hihat_a_store_add fuel m.1 m.2 hv1 item
      else if record.info ≠ 0 then
        some (false, top1)
      else
        let candidate : hihat_record_t := { item := item, info := top1.next_epoch }
        let top2 : hihat_t := { top1 with next_epoch := (top1.next_epoch + 1) % U64 }
        let st2 : hihat_store_t :=
          { st with buckets := st.buckets.set bix { bucket with record := candidate } }
        let top3 : hihat_t :=
          { top2 with
            store_current := st2
            item_count := (top2.item_count + 1) % U64 }
        some (true, top3)

/-- Mirrors hihat_a_store_replace (lines 368-440): probe without
claiming; absent hash or empty record yields (NULL, false) with no
modification; otherwise install the new item with the record info
(hence the epoch) unchanged. -/
def hihat_a_store_replace (fuel : Nat) (self : hihat_store_t) (top : hihat_t)
    (hv1 item : Nat) : Option (Nat × Bool × hihat_t) :=
  match fuel with
  | 0 => none
  | Nat.succ fuel =>
    match hihat_probe_ro self hv1 (self.last_slot + 1)
        (hatrack_bucket_index hv1 self.last_slot) with
    | none => some (0, false, top)
    | some bix =>
      let bucket := self.buckets.getD bix default
      let record := bucket.record
      if record.info &&& HIHAT_F_MOVING ≠ 0 then
        let m := hihat_a_store_migrate self top
        hihat_a_store_replace fuel m.1 m.2 hv1 item
      else if record.info = 0 then
        some (0, false, top)
      else
        let candidate : hihat_record_t := { item := item, info := record.info }
        let st2 : hihat_store_t :=
          { self with buckets := self.buckets.set bix { bucket with record := candidate } }
        some (record.item, true, { top with store_current := st2 })

/-- Mirrors hihat_a_store_remove (lines 510-589): probe without
claiming; a miss or an empty record yields (NULL, false); otherwise
install (NULL, 0), decrement item_count (with uint64 wrap) and return
the displaced item with found = true. -/
def hihat_a_store_remove (fuel : Nat) (self : hihat_store_t) (top : hihat_t)
    (hv1 : Nat) : Option (Nat × Bool × hihat_t) :=
  match fuel with
  | 0 => none
  | Nat.succ fuel =>
    match hihat_probe_ro self hv1 (self.last_slot + 1)
        (hatrack_bucket_index hv1 self.last_slot) with
    | none => some (0, false, top)
    | some bix =>
      let bucket := self.buckets.getD bix default
      let record := bucket.record
      if record.info &&& HIHAT_F_MOVING ≠ 0 then
        let m := hihat_a_store_migrate self top
        hihat_a_store_remove fuel m.1 m.2 hv1
      else if record.info = 0 then
        some (0, false, top)
      else
        let candidate : hihat_record_t := { item := 0, info := 0 }
        let st2 : hihat_store_t :=
          { self with buckets := self.buckets.set bix { bucket with record := candidate } }
        some (record.item, true,
          { top with
            store_current := st2
            item_count := (top.item_count + (U64 - 1)) % U64 })

/-- Mirrors hihat_a_init (lines 55-67): minimum-size store, item count
zero, first epoch 1. -/
def hihat_a_init : hihat_t :=
  { store_current := hihat_a_store_new HATRACK_MIN_SIZE
    item_count := 0
    next_epoch := 1 }

/-- Mirrors hihat_a_get (lines 69-83): read the current store and run the
store-level get; readers do not modify any table state, so the result is
just the value and the found flag. -/
def hihat_a_get (top : hihat_t) (hv : Nat) : Nat × Bool :=
  hihat_a_store_get top.store_current hv

/-- Mirrors hihat_a_put (lines 85-99). -/
def hihat_a_put (fuel : Nat) (top : hihat_t) (hv item : Nat) :
    Option (Nat × Bool × hihat_t) :=
  hihat_a_store_put fuel top.store_current top hv item

/-- Mirrors hihat_a_replace (lines 101-115). -/
def hihat_a_replace (fuel : Nat) (top : hihat_t) (hv item : Nat) :
    Option (Nat × Bool × hihat_t) :=
  hihat_a_store_replace fuel top.store_current top hv item

/-- Mirrors hihat_a_add (lines 117-131). -/
def hihat_a_add (fuel : Nat) (top : hihat_t) (hv item : Nat) :
    Option (Bool × hihat_t) :=
  hihat_a_store_add fuel top.store_current top hv item

/-- Mirrors hihat_a_remove (lines 133-147). -/
def hihat_a_remove (fuel : Nat) (top : hihat_t) (hv : Nat) :
    Option (Nat × Bool × hihat_t) :=
  hihat_a_store_remove fuel top.store_current top hv

/-- Mirrors hihat_a_len (lines 158-162). -/
def hihat_a_len (top : hihat_t) : Nat := top.item_count

/-- One entry of a view: the item and the epoch used for sorting. -/
structure hatrack_view_t where
  item : Nat
  sort_epoch : Nat
deriving DecidableEq, Inhabited, Repr

/-- Modelled from the spec (hatrack_common.c is not part of the sources):
the qsort comparator orders view entries by ascending sort_epoch. -/
def hatrack_quicksort_cmp (a b : hatrack_view_t) : Bool := a.sort_epoch ≤ b.sort_epoch

/-- Bucket walk of hihat_a_view (lines 186-200): collect, in bucket
order, an entry for every record whose info has non-zero epoch bits. -/
def hihat_view_collect : List hihat_bucket_t → List hatrack_view_t
  | [] => []
  | b :: rest =>
    let record_epoch := b.record.info &&& HIHAT_EPOCH_MASK
    if record_epoch = 0 then hihat_view_collect rest
    else { item := b.record.item, sort_epoch := record_epoch } :: hihat_view_collect rest

/-- Mirrors hihat_a_view (lines 164-221): walk the buckets of the store
observed at entry, then qsort by ascending epoch when sort is set.  The
C function additionally returns NULL instead of an empty array; the
returned count is the list length in either case.  qsort with
hatrack_quicksort_cmp is modelled by mergeSort with the same
comparator, which agrees with any comparison sort on the distinct
epochs the table guarantees. -/
def hihat_a_view (top : hihat_t) (sort : Bool) : List hatrack_view_t × Nat :=
  let store := top.store_current
  let view := hihat_view_collect store.buckets
  let num_items := view.length
  let view2 := if sort then view.mergeSort hatrack_quicksort_cmp else view
  (view2, num_items)

/-! Derived observers and well-formedness predicates used to state the
claims; these are specification-side definitions over the embedded
state, not translations of further C code. -/

/-- Basic shape of a store: the bucket array has last_slot + 1 entries
and the size is a power of two (stated through the bit test
(n + 1) &&& n = 0 so that concrete instances evaluate). -/
def StoreWF (s : hihat_store_t) : Prop :=
  s.buckets.length = s.last_slot + 1 ∧ (s.last_slot + 1) &&& s.last_slot = 0

/-- A store none of whose records carry the MOVING or MOVED flag; every
store that is current between sequential operations has this shape. -/
def FlagsClear (s : hihat_store_t) : Prop :=
  ∀ b ∈ s.buckets, b.record.info &&& (HIHAT_F_MOVING ||| HIHAT_F_MOVED) = 0

/-- Every live record sits in a bucket whose hash slot has been claimed. -/
def LiveHvValid (s : hihat_store_t) : Prop :=
  ∀ b ∈ s.buckets, b.record.info &&& HIHAT_EPOCH_MASK ≠ 0 → b.hv ≠ 0

/-- No two live buckets share a hash value. -/
def LiveHvUnique (s : hihat_store_t) : Prop :=
  s.buckets.Pairwise (fun a b =>
    a.record.info &&& HIHAT_EPOCH_MASK ≠ 0 → b.record.info &&& HIHAT_EPOCH_MASK ≠ 0 →
      a.hv ≠ b.hv)

/-- Record info words fit in a 64 bit machine word. -/
def InfoBound (s : hihat_store_t) : Prop :=
  ∀ b ∈ s.buckets, b.record.info < U64

/-- The number of buckets whose hash slot has been claimed. -/
def hv_claimed_count (s : hihat_store_t) : Nat :=
  s.buckets.countP (fun b => decide (b.hv ≠ 0))

/-- Number of live records among buckets i, i+1, ..., i+n-1. -/
def live_count (s : hihat_store_t) (i : Nat) : Nat → Nat
  | 0 => 0
  | Nat.succ n =>
    (if (s.buckets.getD i default).record.info &&& HIHAT_EPOCH_MASK ≠ 0 then 1 else 0) +
      live_count s (i + 1) n

/-- Epoch bits of the record the read probe reaches for hv, 0 when the
probe misses or the record is not live; the sort key a view would
attach to this hash. -/
def hihat_live_epoch (s : hihat_store_t) (hv : Nat) : Nat :=
  match hihat_probe_ro s hv (s.last_slot + 1) (hatrack_bucket_index hv s.last_slot) with
  | none => 0
  | some bix => (s.buckets.getD bix default).record.info &&& HIHAT_EPOCH_MASK

/-- Hypothesis used where a miss must mean absence: when the read
probe for hv misses, no live bucket anywhere in the store holds hv.
Stores built by the sequential operations always satisfy this. -/
def MissMeansAbsent (s : hihat_store_t) (hv : Nat) : Prop :=
  (hihat_a_store_get s hv).2 = false →
    ∀ b ∈ s.buckets, b.record.info &&& HIHAT_EPOCH_MASK ≠ 0 → b.hv ≠ hv

/-- Buckets whose hash slot is unreserved hold the zero record; true in
every store the sequential operations can produce. -/
def UnreservedEmpty (s : hihat_store_t) : Prop :=
  ∀ b ∈ s.buckets, b.hv = 0 → b.record = { item := 0, info := 0 }

instance (s : hihat_store_t) : Decidable (StoreWF s) :=
  inferInstanceAs (Decidable (_ ∧ _))

instance (s : hihat_store_t) : Decidable (FlagsClear s) :=
  inferInstanceAs (Decidable (∀ b ∈ s.buckets, _ = 0))

instance (s : hihat_store_t) : Decidable (LiveHvValid s) :=
  inferInstanceAs (Decidable (∀ b ∈ s.buckets, _ ≠ 0 → _ ≠ 0))

instance (s : hihat_store_t) : Decidable (LiveHvUnique s) :=
  inferInstanceAs (Decidable (List.Pairwise _ _))

instance (s : hihat_store_t) : Decidable (InfoBound s) :=
  inferInstanceAs (Decidable (∀ b ∈ s.buckets, _ < U64))

instance (s : hihat_store_t) : Decidable (UnreservedEmpty s) :=
  inferInstanceAs (Decidable (∀ b ∈ s.buckets, _ = 0 → _ = _))

instance (s : hihat_store_t) (hv : Nat) : Decidable (MissMeansAbsent s hv) :=
  inferInstanceAs (Decidable (_ → ∀ b ∈ s.buckets, _ ≠ 0 → _ ≠ hv))

/-- Concrete table holding item 11 under hash 7, used to exercise the
theorems at concrete inputs. -/
def table_with_7 : hihat_t :=
  ((hihat_a_put 2 hihat_a_init 7 11).getD (0, false, hihat_a_init)).2.2

/-- Concrete store for exercising get on a bucket mid-migration: hash 4
lives in slot 0 with epoch 5 and both MOVING and MOVED set. -/
def store_c10 : hihat_store_t :=
  { last_slot := 3, threshold := 3, used_count := 1,
    buckets := [{ hv := 4, record := { item := 99, info := 5 + 2 ^ 62 + 2 ^ 63 } },
      default, default, default] }

/-- Frame property: the first store agrees with the second on every
bucket except possibly one. -/
def OneBucketFrame (s1 s2 : hihat_store_t) : Prop :=
  ∃ b, b ≤ s2.last_slot ∧
    ∀ j, j ≠ b → s1.buckets.getD j default = s2.buckets.getD j default

/-- Table states reached from table_with_7 by one non-migrating put, add
and remove on hash 7, used as concrete witnesses. -/
def c7_topP : hihat_t := ((hihat_a_put 1 table_with_7 7 12).getD (0, false, hihat_a_init)).2.2

/-- Table state after add(7, 12) on table_with_7 (the add fails). -/
def c7_topA : hihat_t := ((hihat_a_add 1 table_with_7 7 12).getD (false, hihat_a_init)).2

/-- Table state after remove(7) on table_with_7. -/
def c7_topR : hihat_t := ((hihat_a_remove 1 table_with_7 7).getD (0, false, hihat_a_init)).2.2

/-- Per-bucket effect of the freeze phase, as a function: set MOVING,
adding MOVED when the record is empty; a bucket already MOVING is left
alone. -/
def freeze_bucket (b : hihat_bucket_t) : hihat_bucket_t :=
  if b.record.info &&& HIHAT_F_MOVING ≠ 0 then b
  else
    let info2 := if b.record.info ≠ 0 then b.record.info ||| HIHAT_F_MOVING
      else HIHAT_F_MOVING ||| HIHAT_F_MOVED
    { b with record := { item := b.record.item, info := info2 } }

/-- Per-bucket effect of the copy phase on the source store: the record
keeps its item and gains the MOVED flag. -/
def moved_bucket (b : hihat_bucket_t) : hihat_bucket_t :=
  { b with record := { item := b.record.item, info := b.record.info ||| HIHAT_F_MOVED } }

/-- MOVING monotonicity between two stores: any bucket MOVING in the
first is still MOVING in the second. -/
def MovingMono (s1 s2 : hihat_store_t) : Prop :=
  ∀ j : Nat, (s1.buckets.getD j default).record.info &&& HIHAT_F_MOVING ≠ 0 →
    (s2.buckets.getD j default).record.info &&& HIHAT_F_MOVING ≠ 0

/-- Every record carrying MOVED also carries MOVING. -/
def MovedImpliesMovingAll (s : hihat_store_t) : Prop :=
  ∀ j : Nat, (s.buckets.getD j default).record.info &&& HIHAT_F_MOVED ≠ 0 →
    (s.buckets.getD j default).record.info &&& HIHAT_F_MOVING ≠ 0

/-- Table state after replace(7, 12) on table_with_7. -/
def c9_topR2 : hihat_t :=
  ((hihat_a_replace 1 table_with_7 7 12).getD (0, false, hihat_a_init)).2.2

/-- Index sequence of the open-addressing probe: start at bix and mask
with last_slot after each increment. -/
def probe_walk (ls bix : Nat) : Nat → Nat
  | 0 => bix
  | Nat.succ t => probe_walk ls ((bix + 1) &&& ls) t

/-- Number of indices k in [i, i+n) with epochF k nonzero, for an
abstract epoch assignment. -/
def live_countF (epochF : Nat → Nat) (i : Nat) : Nat → Nat
  | 0 => 0
  | Nat.succ n => (if epochF i ≠ 0 then 1 else 0) + live_countF epochF (i + 1) n

/-- Bucket k of the store holds a live record (non-zero epoch bits). -/
def live_at (s : hihat_store_t) (k : Nat) : Prop :=
  (s.buckets.getD k default).record.info &&& HIHAT_EPOCH_MASK ≠ 0

instance (s : hihat_store_t) (k : Nat) : Decidable (live_at s k) :=
  inferInstanceAs (Decidable (_ ≠ 0))

/-- The new store reaches, with a read probe for the hash of bucket k of
sf, a slot holding that hash together with the record of bucket k
stripped to its epoch bits. -/
def copied_at (sf ns : hihat_store_t) (k : Nat) : Prop :=
  ∃ j, hihat_probe_ro ns (sf.buckets.getD k default).hv (ns.last_slot + 1)
      (hatrack_bucket_index (sf.buckets.getD k default).hv ns.last_slot) = some j ∧
    (ns.buckets.getD j default).hv = (sf.buckets.getD k default).hv ∧
    (ns.buckets.getD j default).record =
      { item := (sf.buckets.getD k default).record.item
        info := (sf.buckets.getD k default).record.info &&& HIHAT_EPOCH_MASK }

/-- Table state after add(5, 9) on the freshly initialised table. -/
def c8_topA : hihat_t := ((hihat_a_add 1 hihat_a_init 5 9).getD (false, hihat_a_init)).2

/-- Table state after put(5, 9) on table_with_7: two live items with
epochs 1 and 2. -/
def c6_top : hihat_t := ((hihat_a_put 1 table_with_7 5 9).getD (0, false, hihat_a_init)).2.2

/-- A size-64 store with 48 live buckets: used_count sits exactly at the
75% threshold while every record is live, so the spec-modelled size
computation keeps the table at 64 slots with threshold 48. -/
def cexBuckets : List hihat_bucket_t :=
  (List.range 64).map (fun i =>
    if i < 48 then { hv := 64 + i, record := { item := i, info := i + 1 } } else default)

def cexStore : hihat_store_t :=
  { last_slot := 63, threshold := 48, used_count := 48, buckets := cexBuckets }

def cexTop : hihat_t :=
  { store_current := cexStore, item_count := 48, next_epoch := 49 }

/-- The store after put(200) claims slot 48 of cexStore and abandons it. -/
def cexSt1 : hihat_store_t :=
  { cexStore with buckets := cexStore.buckets.set 48 { cexStore.buckets.getD 48 default with hv := 200 }, used_count := 4 + 45 }

/-- A size-4 store holding 3 live items, exactly at its threshold. -/
def c5Buckets : List hihat_bucket_t :=
  [{ hv := 4, record := { item := 1, info := 1 } },
   { hv := 5, record := { item := 2, info := 2 } },
   { hv := 6, record := { item := 3, info := 3 } },
   default]

def c5Store : hihat_store_t :=
  { last_slot := 3, threshold := 3, used_count := 3, buckets := c5Buckets }

def c5Top : hihat_t :=
  { store_current := c5Store, item_count := 3, next_epoch := 4 }

/-- The store after put(7) claims the last free slot of c5Store and
abandons it at the threshold. -/
def c5St1 : hihat_store_t :=
  { c5Store with buckets := c5Store.buckets.set 3 { c5Store.buckets.getD 3 default with hv := 7 }, used_count := 4 }

/-! Bitwise facts about the info word layout. -/

theorem nat_and_two_pow_eq_zero {x k : Nat} (h : x.testBit k = false) : x &&& 2 ^ k = 0 := by
  apply Nat.eq_of_testBit_eq
  intro i
  simp only [Nat.testBit_and, Nat.testBit_two_pow, Nat.zero_testBit]
  by_cases hik : k = i
  · subst hik; simp [h]
  · simp [hik]

theorem nat_and_two_pow_ne_zero {x k : Nat} (h : x &&& 2 ^ k ≠ 0) : x.testBit k = true := by
  by_contra hb
  exact h (nat_and_two_pow_eq_zero (Bool.eq_false_iff.mpr hb))

theorem nat_testBit_of_and_two_pow {x k : Nat} (h : x &&& 2 ^ k = 0) : x.testBit k = false := by
  by_contra hb
  have hx : x.testBit k = true := Bool.not_eq_false _ |>.mp hb
  have : (x &&& 2 ^ k).testBit k = true := by
    simp [Nat.testBit_and, hx, Nat.testBit_two_pow]
  rw [h] at this
  simp at this

theorem or_high_and_mask {x k n : Nat} (hk : n ≤ k) :
    (x ||| 2 ^ k) &&& (2 ^ n - 1) = x &&& (2 ^ n - 1) := by
  apply Nat.eq_of_testBit_eq
  intro i
  simp only [Nat.testBit_and, Nat.testBit_or, Nat.testBit_two_pow, Nat.testBit_two_pow_sub_one]
  by_cases hi : i < n
  · have : k ≠ i := by omega
    simp [hi, this]
  · simp [hi]

theorem or_flag_and_flag (x k : Nat) : (x ||| 2 ^ k) &&& 2 ^ k = 2 ^ k := by
  apply Nat.eq_of_testBit_eq
  intro i
  simp only [Nat.testBit_and, Nat.testBit_or, Nat.testBit_two_pow]
  by_cases hik : k = i
  · simp [hik]
  · simp [hik]

theorem or_other_and_flag {x j k : Nat} (hjk : j ≠ k) :
    (x ||| 2 ^ j) &&& 2 ^ k = x &&& 2 ^ k := by
  apply Nat.eq_of_testBit_eq
  intro i
  simp only [Nat.testBit_and, Nat.testBit_or, Nat.testBit_two_pow]
  by_cases hik : k = i
  · have : j ≠ i := by omega
    simp [hik, this]
  · simp [hik]

theorem and_mask_eq_mod (x : Nat) : x &&& HIHAT_EPOCH_MASK = x % 2 ^ 62 := by
  have := Nat.and_pow_two_sub_one_eq_mod x 62
  simpa [HIHAT_EPOCH_MASK] using this

theorem mask_of_flags_clear {x : Nat} (h62 : x &&& HIHAT_F_MOVING = 0)
    (h63 : x &&& HIHAT_F_MOVED = 0) (hb : x < U64) :
    x &&& HIHAT_EPOCH_MASK = x := by
  apply Nat.eq_of_testBit_eq
  intro i
  simp only [Nat.testBit_and, HIHAT_EPOCH_MASK, Nat.testBit_two_pow_sub_one]
  by_cases hi : i < 62
  · simp [hi]
  · have hb62 : x.testBit 62 = false := nat_testBit_of_and_two_pow (k := 62) h62
    have hb63 : x.testBit 63 = false := nat_testBit_of_and_two_pow (k := 63) h63
    by_cases h64 : i < 64
    · have : i = 62 ∨ i = 63 := by omega
      rcases this with h | h <;> simp [h, hi, hb62, hb63]
    · have : x.testBit i = false := Nat.testBit_lt_two_pow (by
        calc x < U64 := hb
        _ = 2 ^ 64 := rfl
        _ ≤ 2 ^ i := Nat.pow_le_pow_right (by omega) (by omega))
      simp [hi, this]

theorem moving_or_mask (x : Nat) :
    (x ||| HIHAT_F_MOVING) &&& HIHAT_EPOCH_MASK = x &&& HIHAT_EPOCH_MASK :=
  or_high_and_mask (by omega)

theorem moved_or_mask (x : Nat) :
    (x ||| HIHAT_F_MOVED) &&& HIHAT_EPOCH_MASK = x &&& HIHAT_EPOCH_MASK :=
  or_high_and_mask (by omega)

theorem moving_or_moving (x : Nat) :
    (x ||| HIHAT_F_MOVING) &&& HIHAT_F_MOVING = HIHAT_F_MOVING :=
  or_flag_and_flag x 62

theorem moved_or_moved (x : Nat) :
    (x ||| HIHAT_F_MOVED) &&& HIHAT_F_MOVED = HIHAT_F_MOVED :=
  or_flag_and_flag x 63

theorem moved_or_moving (x : Nat) :
    (x ||| HIHAT_F_MOVED) &&& HIHAT_F_MOVING = x &&& HIHAT_F_MOVING :=
  or_other_and_flag (by omega)

theorem moving_or_moved (x : Nat) :
    (x ||| HIHAT_F_MOVING) &&& HIHAT_F_MOVED = x &&& HIHAT_F_MOVED :=
  or_other_and_flag (by omega)

theorem mask_and_flag_zero {k : Nat} (hk : 62 ≤ k) (x : Nat) :
    (x &&& HIHAT_EPOCH_MASK) &&& 2 ^ k = 0 := by
  apply nat_and_two_pow_eq_zero
  simp only [Nat.testBit_and, HIHAT_EPOCH_MASK, Nat.testBit_two_pow_sub_one]
  have : ¬ k < 62 := by omega
  simp [this]

theorem mask_idem (x : Nat) :
    (x &&& HIHAT_EPOCH_MASK) &&& HIHAT_EPOCH_MASK = x &&& HIHAT_EPOCH_MASK := by
  rw [Nat.and_assoc, Nat.and_self]

theorem lt_mask_and_flag_zero {x k : Nat} (hx : x < 2 ^ 62) (hk : 62 ≤ k) :
    x &&& 2 ^ k = 0 := by
  apply nat_and_two_pow_eq_zero
  exact Nat.testBit_lt_two_pow (lt_of_lt_of_le hx (Nat.pow_le_pow_right (by omega) hk))

theorem lt_mask_and_mask {x : Nat} (hx : x < 2 ^ 62) : x &&& HIHAT_EPOCH_MASK = x := by
  rw [and_mask_eq_mod]
  exact Nat.mod_eq_of_lt hx

theorem flags_or_mask_zero :
    (HIHAT_F_MOVING ||| HIHAT_F_MOVED) &&& HIHAT_EPOCH_MASK = 0 := by
  decide

/-! List access helpers. -/

theorem getD_set_self {α : Type} {l : List α} {i : Nat} (h : i < l.length) (a d : α) :
    (l.set i a).getD i d = a := by
  simp [List.getD_eq_getElem?_getD, List.getElem?_set_self h]

theorem getD_set_ne {α : Type} {l : List α} {i j : Nat} (h : i ≠ j) (a d : α) :
    (l.set i a).getD j d = l.getD j d := by
  simp [List.getD_eq_getElem?_getD, List.getElem?_set_ne h]

/-! Probe lemmas.  The walk of every operation starts at an index that is
at most last_slot and each step masks with last_slot, so all probed
indices stay in range. -/

theorem probe_ro_some_hv {s : hihat_store_t} {hv : Nat} :
    ∀ {n bix b : Nat}, hihat_probe_ro s hv n bix = some b → bix ≤ s.last_slot →
      (s.buckets.getD b default).hv = hv ∧ b ≤ s.last_slot := by
  intro n
  induction n with
  | zero => intro bix b h _; simp [hihat_probe_ro] at h
  | succ n ih =>
    intro bix b h hb
    simp only [hihat_probe_ro] at h
    split at h
    · exact absurd h (by simp)
    · split at h
      · exact ih h (Nat.and_le_right)
      · rename_i hz hne
        rw [Option.some.injEq] at h
        subst h
        exact ⟨by simpa using hne, hb⟩

theorem probe_ro_congr {s1 s2 : hihat_store_t} {hv : Nat}
    (hls : s1.last_slot = s2.last_slot)
    (hhv : ∀ j, (s1.buckets.getD j default).hv = (s2.buckets.getD j default).hv) :
    ∀ n bix, hihat_probe_ro s1 hv n bix = hihat_probe_ro s2 hv n bix := by
  intro n
  induction n with
  | zero => intro bix; simp [hihat_probe_ro]
  | succ n ih =>
    intro bix
    simp only [hihat_probe_ro, hhv bix, hls]
    split
    · rfl
    · split
      · exact ih ((bix + 1) &&& s2.last_slot)
      · rfl

theorem probe_claim_found_spec {s : hihat_store_t} {hv : Nat}
    (hlen : s.buckets.length = s.last_slot + 1) :
    ∀ {n bix : Nat} {st : hihat_store_t} {b : Nat},
      hihat_probe_claim s hv n bix = .found st b → bix ≤ s.last_slot →
      st.last_slot = s.last_slot ∧ st.threshold = s.threshold ∧
      st.buckets.length = s.buckets.length ∧ b ≤ s.last_slot ∧
      (st.buckets.getD b default).hv = hv ∧
      (st.buckets.getD b default).record = (s.buckets.getD b default).record ∧
      (∀ j, j ≠ b → st.buckets.getD j default = s.buckets.getD j default) ∧
      ((s.buckets.getD b default).hv = hv ∧ st = s ∨
        (s.buckets.getD b default).hv = 0 ∧ st.used_count = s.used_count + 1 ∧
          s.used_count < s.threshold) := by
  intro n
  induction n with
  | zero => intro bix st b h _; simp [hihat_probe_claim] at h
  | succ n ih =>
    intro bix st b h hb
    simp only [hihat_probe_claim] at h
    split at h
    · rename_i hz
      split at h
      · exact absurd h (by simp)
      · rename_i hthr
        rw [hihat_claim_t.found.injEq] at h
        obtain ⟨hst, hbix⟩ := h
        subst hbix
        have hlt : bix < s.buckets.length := by omega
        constructor
        · rw [← hst]
        constructor
        · rw [← hst]
        constructor
        · rw [← hst]; simp
        refine ⟨hb, ?_, ?_, ?_, ?_⟩
        · rw [← hst]; simp only []
          rw [getD_set_self hlt]
        · rw [← hst]; simp only []
          rw [getD_set_self hlt]
        · intro j hj
          rw [← hst]; simp only []
          rw [getD_set_ne (fun heq => hj heq.symm)]
        · right
          refine ⟨hz, ?_, by omega⟩
          rw [← hst]
    · split at h
      · exact ih h (Nat.and_le_right)
      · rename_i hz hne
        rw [hihat_claim_t.found.injEq] at h
        obtain ⟨hst, hbix⟩ := h
        subst hbix hst
        refine ⟨rfl, rfl, rfl, hb, by simpa using hne, rfl, fun j _ => rfl, ?_⟩
        left
        exact ⟨by simpa using hne, rfl⟩

theorem probe_claim_ro {s : hihat_store_t} {hv : Nat}
    (hlen : s.buckets.length = s.last_slot + 1) (hhv0 : hv ≠ 0) :
    ∀ {n bix : Nat} {st : hihat_store_t} {b : Nat},
      hihat_probe_claim s hv n bix = .found st b → bix ≤ s.last_slot →
      hihat_probe_ro st hv n bix = some b := by
  intro n
  induction n with
  | zero => intro bix st b h _; simp [hihat_probe_claim] at h
  | succ n ih =>
    intro bix st b h hb
    have spec := probe_claim_found_spec hlen h hb
    obtain ⟨hls, hthr, hlen2, hble, hhvb, hrec, hframe, hcases⟩ := spec
    simp only [hihat_probe_claim] at h
    split at h
    · rename_i hz
      split at h
      · exact absurd h (by simp)
      · rw [hihat_claim_t.found.injEq] at h
        obtain ⟨hst, hbix⟩ := h
        subst hbix
        simp only [hihat_probe_ro, hhvb, hhv0]
        simp
    · split at h
      · rename_i hz hne
        have hnext := ih h Nat.and_le_right
        have hbixb : bix ≠ b := by
          intro heq
          rw [← heq] at hcases
          rcases hcases with ⟨hc, _⟩ | ⟨hc, _⟩
          · exact hne hc
          · exact hz hc
        have hcur : st.buckets.getD bix default = s.buckets.getD bix default :=
          hframe bix hbixb
        simp only [hihat_probe_ro, hcur, hls]
        split
        · rename_i hz2; exact absurd hz2 hz
        · exact hnext
      · rename_i hz hne
        rw [hihat_claim_t.found.injEq] at h
        obtain ⟨hst, hbix⟩ := h
        subst hbix hst
        have : (s.buckets.getD bix default).hv = hv := by simpa using hne
        simp only [hihat_probe_ro, this, hhv0]
        simp

/-! Size computation facts. -/

theorem pow2_log2 (m : Nat) : Nat.log2 (2 ^ m) = m := by
  rw [Nat.log2_eq_log_two]
  exact Nat.log_pow (by omega) m

theorem threshold_double {s : Nat} (hs : 1 ≤ s) :
    hatrack_compute_table_threshold s + 1 ≤ hatrack_compute_table_threshold (2 * s) := by
  simp only [hatrack_compute_table_threshold]
  omega

theorem new_size_go_pow2 : ∀ (fuel size num : Nat), (∃ m, size = 2 ^ m) →
    ∃ m, hatrack_new_size_go size num fuel = 2 ^ m := by
  intro fuel
  induction fuel with
  | zero => intro size num h; exact h
  | succ fuel ih =>
    intro size num h
    simp only [hatrack_new_size_go]
    split
    · exact h
    · obtain ⟨m, hm⟩ := h
      exact ih (2 * size) num ⟨m + 1, by rw [hm]; ring⟩

theorem new_size_go_ge : ∀ (fuel size num : Nat), size ≤ hatrack_new_size_go size num fuel := by
  intro fuel
  induction fuel with
  | zero => intro size num; exact Nat.le_refl _
  | succ fuel ih =>
    intro size num
    simp only [hatrack_new_size_go]
    split
    · exact Nat.le_refl _
    · exact le_trans (by omega) (ih (2 * size) num)

theorem new_size_go_covers : ∀ (fuel size num : Nat), 1 ≤ size →
    num ≤ hatrack_compute_table_threshold size + fuel →
    num ≤ hatrack_compute_table_threshold (hatrack_new_size_go size num fuel) := by
  intro fuel
  induction fuel with
  | zero =>
    intro size num h1 h2
    simpa [hatrack_new_size_go] using h2
  | succ fuel ih =>
    intro size num h1 h2
    simp only [hatrack_new_size_go]
    split
    · assumption
    · apply ih (2 * size) num (by omega)
      have := threshold_double h1
      omega

theorem new_size_pow2 (ls num : Nat) : ∃ m, hatrack_new_size ls num = 2 ^ m :=
  new_size_go_pow2 (num + 1) HATRACK_MIN_SIZE num ⟨6, rfl⟩

theorem new_size_ge (ls num : Nat) : HATRACK_MIN_SIZE ≤ hatrack_new_size ls num :=
  new_size_go_ge (num + 1) HATRACK_MIN_SIZE num

theorem new_size_covers (ls num : Nat) :
    num ≤ hatrack_compute_table_threshold (hatrack_new_size ls num) := by
  apply new_size_go_covers (num + 1) HATRACK_MIN_SIZE num (by decide)
  have : hatrack_compute_table_threshold HATRACK_MIN_SIZE = 48 := by decide
  omega

/-! Static facts about the migration helpers: table geometry is never
changed by freezing, probing or copying. -/

theorem migrate_probe_static {hv : Nat} : ∀ (n bix : Nat) (ns : hihat_store_t),
    (hihat_migrate_probe ns hv n bix).1.last_slot = ns.last_slot ∧
    (hihat_migrate_probe ns hv n bix).1.threshold = ns.threshold ∧
    (hihat_migrate_probe ns hv n bix).1.used_count = ns.used_count ∧
    (hihat_migrate_probe ns hv n bix).1.buckets.length = ns.buckets.length := by
  intro n
  induction n with
  | zero => intro bix ns; exact ⟨rfl, rfl, rfl, rfl⟩
  | succ n ih =>
    intro bix ns
    simp only [hihat_migrate_probe]
    split
    · exact ⟨rfl, rfl, rfl, by simp⟩
    · split
      · split
        · exact ⟨rfl, rfl, rfl, rfl⟩
        · exact ih _ ns
      · exact ⟨rfl, rfl, rfl, rfl⟩

theorem migrate_probe_static_pair {hv : Nat} (n bix : Nat) (ns : hihat_store_t) :
    (hihat_migrate_probe ns hv n bix).1.last_slot = ns.last_slot ∧
    (hihat_migrate_probe ns hv n bix).1.threshold = ns.threshold ∧
    (hihat_migrate_probe ns hv n bix).1.used_count = ns.used_count ∧
    (hihat_migrate_probe ns hv n bix).1.buckets.length = ns.buckets.length :=
  migrate_probe_static n bix ns

theorem migrate_freeze_last_slot : ∀ (n : Nat) (s : hihat_store_t) (nu i : Nat),
    (hihat_migrate_freeze s nu i n).1.last_slot = s.last_slot := by
  intro n
  induction n with
  | zero => intro s nu i; rfl
  | succ n ih =>
    intro s nu i
    simp only [hihat_migrate_freeze]
    split
    · exact ih s _ _
    · exact (ih _ _ _).trans (by simp)

theorem migrate_freeze_threshold : ∀ (n : Nat) (s : hihat_store_t) (nu i : Nat),
    (hihat_migrate_freeze s nu i n).1.threshold = s.threshold := by
  intro n
  induction n with
  | zero => intro s nu i; rfl
  | succ n ih =>
    intro s nu i
    simp only [hihat_migrate_freeze]
    split
    · exact ih s _ _
    · exact (ih _ _ _).trans (by simp)

theorem migrate_freeze_used_count : ∀ (n : Nat) (s : hihat_store_t) (nu i : Nat),
    (hihat_migrate_freeze s nu i n).1.used_count = s.used_count := by
  intro n
  induction n with
  | zero => intro s nu i; rfl
  | succ n ih =>
    intro s nu i
    simp only [hihat_migrate_freeze]
    split
    · exact ih s _ _
    · exact (ih _ _ _).trans (by simp)

theorem migrate_freeze_length : ∀ (n : Nat) (s : hihat_store_t) (nu i : Nat),
    (hihat_migrate_freeze s nu i n).1.buckets.length = s.buckets.length := by
  intro n
  induction n with
  | zero => intro s nu i; rfl
  | succ n ih =>
    intro s nu i
    simp only [hihat_migrate_freeze]
    split
    · exact ih s _ _
    · exact (ih _ _ _).trans (by simp)

theorem migrate_copy_new_static : ∀ (n : Nat) (s ns : hihat_store_t) (nu i : Nat),
    (hihat_migrate_copy s ns nu i n).2.1.last_slot = ns.last_slot ∧
    (hihat_migrate_copy s ns nu i n).2.1.threshold = ns.threshold ∧
    (hihat_migrate_copy s ns nu i n).2.1.used_count = ns.used_count ∧
    (hihat_migrate_copy s ns nu i n).2.1.buckets.length = ns.buckets.length := by
  intro n
  induction n with
  | zero => intro s ns nu i; exact ⟨rfl, rfl, rfl, rfl⟩
  | succ n ih =>
    intro s ns nu i
    have key : ∀ (x : hihat_store_t), x.last_slot = ns.last_slot →
        x.threshold = ns.threshold → x.used_count = ns.used_count →
        x.buckets.length = ns.buckets.length →
        ∀ (s2 : hihat_store_t) (nu2 : Nat),
        (hihat_migrate_copy s2 x nu2 (i + 1) n).2.1.last_slot = ns.last_slot ∧
        (hihat_migrate_copy s2 x nu2 (i + 1) n).2.1.threshold = ns.threshold ∧
        (hihat_migrate_copy s2 x nu2 (i + 1) n).2.1.used_count = ns.used_count ∧
        (hihat_migrate_copy s2 x nu2 (i + 1) n).2.1.buckets.length = ns.buckets.length := by
      intro x h1 h2 h3 h4 s2 nu2
      obtain ⟨q1, q2, q3, q4⟩ := ih s2 x nu2 (i + 1)
      exact ⟨q1.trans h1, q2.trans h2, q3.trans h3, q4.trans h4⟩
    simp only [hihat_migrate_copy]
    split
    · exact ih s ns _ _
    · obtain ⟨p1, p2, p3, p4⟩ := @migrate_probe_static
        (s.buckets.getD i default).hv (ns.last_slot + 1)
        (hatrack_bucket_index (s.buckets.getD i default).hv ns.last_slot) ns
      split
      · apply key
        · exact p1
        · exact p2
        · exact p3
        · exact (List.length_set _ _ _).trans p4
      · apply key
        · exact p1
        · exact p2
        · exact p3
        · exact p4

theorem migrate_copy_old_static : ∀ (n : Nat) (s ns : hihat_store_t) (nu i : Nat),
    (hihat_migrate_copy s ns nu i n).1.last_slot = s.last_slot ∧
    (hihat_migrate_copy s ns nu i n).1.threshold = s.threshold ∧
    (hihat_migrate_copy s ns nu i n).1.used_count = s.used_count ∧
    (hihat_migrate_copy s ns nu i n).1.buckets.length = s.buckets.length := by
  intro n
  induction n with
  | zero => intro s ns nu i; exact ⟨rfl, rfl, rfl, rfl⟩
  | succ n ih =>
    intro s ns nu i
    simp only [hihat_migrate_copy]
    split
    · exact ih s ns _ _
    · split
      · obtain ⟨q1, q2, q3, q4⟩ := ih _ _ _ (i + 1)
        refine ⟨q1.trans ?_, q2.trans ?_, q3.trans ?_, q4.trans ?_⟩ <;> simp
      · obtain ⟨q1, q2, q3, q4⟩ := ih _ _ _ (i + 1)
        refine ⟨q1.trans ?_, q2.trans ?_, q3.trans ?_, q4.trans ?_⟩ <;> simp

/-! Power-of-two recognition through the bit test n+1 &&& n = 0. -/

theorem two_pow_and_pred (m : Nat) : 2 ^ m &&& (2 ^ m - 1) = 0 := by
  apply Nat.eq_of_testBit_eq
  intro i
  simp only [Nat.testBit_and, Nat.testBit_two_pow, Nat.testBit_two_pow_sub_one,
    Nat.zero_testBit]
  by_cases him : m = i
  · subst him; simp
  · simp [him]

theorem exp_of_pow2_mask : ∀ n : Nat, (n + 1) &&& n = 0 → ∃ m, n + 1 = 2 ^ m := by
  intro n
  induction n using Nat.strong_induction_on with
  | _ n ih =>
    intro h
    have hbit : ∀ j : Nat, ((n + 1).testBit j && n.testBit j) = false := by
      intro j
      have := congrArg (fun x => x.testBit j) h
      simpa [Nat.testBit_and] using this
    rcases Nat.even_or_odd (n + 1) with he | ho
    · obtain ⟨M, hM⟩ := he
      have hM1 : 1 ≤ M := by omega
      have hhalf1 : (n + 1) / 2 = M := by omega
      have hhalf2 : n / 2 = M - 1 := by omega
      have hmask : (M - 1 + 1) &&& (M - 1) = 0 := by
        apply Nat.eq_of_testBit_eq
        intro k
        simp only [Nat.testBit_and, Nat.zero_testBit]
        have h1 : (M - 1 + 1).testBit k = (n + 1).testBit (k + 1) := by
          rw [Nat.testBit_add_one, hhalf1]
          congr 1
          omega
        have h2 : (M - 1).testBit k = n.testBit (k + 1) := by
          rw [Nat.testBit_add_one, hhalf2]
        rw [h1, h2]
        exact hbit (k + 1)
      obtain ⟨m, hm⟩ := ih (M - 1) (by omega) hmask
      exact ⟨m + 1, by rw [pow_succ]; omega⟩
    · rcases Nat.lt_or_ge n 1 with h1 | h1
      · have : n = 0 := by omega
        exact ⟨0, by omega⟩
      · exfalso
        have ht : (n + 1) / 2 ≥ 1 := by omega
        have htz : (n + 1) / 2 ≠ 0 := by omega
        have : ∃ k, ((n + 1) / 2).testBit k = true := by
          by_contra hall
          push_neg at hall
          have : (n + 1) / 2 = 0 := by
            apply Nat.eq_of_testBit_eq
            intro i
            simp [Bool.eq_false_iff.mpr (hall i)]
          exact htz this
        obtain ⟨k, hk⟩ := this
        have hodd : (n + 1) % 2 = 1 := Nat.odd_iff.mp ho
        have hbit1 : (n + 1).testBit (k + 1) = true := by
          rw [Nat.testBit_add_one]; exact hk
        have hbit2 : n.testBit (k + 1) = true := by
          rw [Nat.testBit_add_one]
          have : n / 2 = (n + 1) / 2 := by omega
          rw [this]; exact hk
        have := hbit (k + 1)
        rw [hbit1, hbit2] at this
        simp at this

/-! Well-formedness of fresh and migrated stores. -/

theorem store_new_wf {sz : Nat} (h : ∃ m, sz = 2 ^ m) : StoreWF (hihat_a_store_new sz) := by
  obtain ⟨m, rfl⟩ := h
  have hpos : 0 < 2 ^ m := Nat.two_pow_pos m
  constructor
  · simp only [hihat_a_store_new, List.length_replicate]
    omega
  · simp only [hihat_a_store_new]
    have hsub : 2 ^ m - 1 + 1 = 2 ^ m := by omega
    rw [hsub]
    exact two_pow_and_pred m

theorem storeWF_copy {cand : hihat_store_t} (h : StoreWF cand) (s : hihat_store_t)
    (nu i n : Nat) : StoreWF (hihat_migrate_copy s cand nu i n).2.1 := by
  obtain ⟨h1, h2⟩ := h
  obtain ⟨c1, c2, c3, c4⟩ := migrate_copy_new_static n s cand nu i
  exact ⟨by rw [c4, c1, h1], by rw [c1, h2]⟩

theorem migrate_self_store_current (st : hihat_store_t) (top : hihat_t) :
    (hihat_a_store_migrate st { top with store_current := st }).2.store_current =
      (hihat_a_store_migrate st { top with store_current := st }).1 := by
  simp only [hihat_a_store_migrate]
  split
  · rename_i h; simp at h
  · split <;> rfl

theorem migrate_self_item_count (st : hihat_store_t) (top : hihat_t) :
    (hihat_a_store_migrate st { top with store_current := st }).2.item_count =
      top.item_count := by
  simp only [hihat_a_store_migrate]
  split
  · rename_i h; simp at h
  · split <;> rfl

theorem migrate_self_next_epoch (st : hihat_store_t) (top : hihat_t) :
    (hihat_a_store_migrate st { top with store_current := st }).2.next_epoch =
      top.next_epoch := by
  simp only [hihat_a_store_migrate]
  split
  · rename_i h; simp at h
  · split <;> rfl

theorem migrate_self_wf (st : hihat_store_t) (top : hihat_t) :
    StoreWF (hihat_a_store_migrate st { top with store_current := st }).1 := by
  simp only [hihat_a_store_migrate]
  split
  · rename_i h; simp at h
  · have hwf := storeWF_copy
      (store_new_wf (new_size_pow2
        (hihat_migrate_freeze st 0 0 (st.last_slot + 1)).1.last_slot
        (hihat_migrate_freeze st 0 0 (st.last_slot + 1)).2))
      (hihat_migrate_freeze st 0 0 (st.last_slot + 1)).1 0 0
      ((hihat_migrate_freeze st 0 0 (st.last_slot + 1)).1.last_slot + 1)
    obtain ⟨w1, w2⟩ := hwf
    split
    · exact ⟨by simpa using w1, by simpa using w2⟩
    · exact ⟨w1, w2⟩

/-! Round-trip lemmas: a successful put is visible to the next get, and a
successful remove makes the next get miss. -/

theorem get_after_record_set {st : hihat_store_t} {hv b : Nat}
    (hro : hihat_probe_ro st hv (st.last_slot + 1)
      (hatrack_bucket_index hv st.last_slot) = some b)
    (hblen : b < st.buckets.length) (rec : hihat_record_t) :
    hihat_a_store_get
      { st with buckets := st.buckets.set b { st.buckets.getD b default with record := rec } }
      hv =
      (if rec.info &&& HIHAT_EPOCH_MASK ≠ 0 then (rec.item, true) else (0, false)) := by
  have hhvs : ∀ j : Nat,
      ((st.buckets.set b { st.buckets.getD b default with record := rec }).getD
          j default).hv = (st.buckets.getD j default).hv := by
    intro j
    by_cases hj : j = b
    · subst hj
      rw [getD_set_self hblen]
    · rw [getD_set_ne (fun hx => hj hx.symm)]
  have hcongr := @probe_ro_congr
    { st with buckets := st.buckets.set b { st.buckets.getD b default with record := rec } }
    st hv rfl hhvs
  have hP : hihat_probe_ro
      { st with buckets := st.buckets.set b { st.buckets.getD b default with record := rec } }
      hv (st.last_slot + 1) (hatrack_bucket_index hv st.last_slot) = some b := by
    rw [hcongr]; exact hro
  simp only [hihat_a_store_get, hP]
  rw [getD_set_self hblen]

theorem put_then_get_aux : ∀ (fuel : Nat) (self : hihat_store_t) (top : hihat_t)
    (hv v r : Nat) (f : Bool) (top2 : hihat_t),
    self = top.store_current → StoreWF self → hv ≠ 0 →
    top.next_epoch &&& HIHAT_EPOCH_MASK ≠ 0 →
    hihat_a_store_put fuel self top hv v = some (r, f, top2) →
    hihat_a_store_get top2.store_current hv = (v, true) := by
  intro fuel
  induction fuel with
  | zero =>
    intro self top hv v r f top2 _ _ _ _ h
    simp [hihat_a_store_put] at h
  | succ fuel ih =>
    intro self top hv v r f top2 halias hwf hhv hne h
    simp only [hihat_a_store_put] at h
    rcases hc : hihat_probe_claim self hv (self.last_slot + 1)
        (hatrack_bucket_index hv self.last_slot) with ⟨st, b⟩ | ⟨st⟩
    case migrate =>
      simp only [hc] at h
      exact ih _ _ hv v r f top2 (migrate_self_store_current st top).symm
        (migrate_self_wf st top) hhv
        (by rw [migrate_self_next_epoch]; exact hne) h
    case found =>
      simp only [hc] at h
      obtain ⟨hls, hthr, hlen2, hble, hhvb, hrec, hframe, hcases⟩ :=
        probe_claim_found_spec hwf.1 hc (Nat.and_le_right)
      by_cases hmov : (st.buckets.getD b default).record.info &&& HIHAT_F_MOVING ≠ 0
      · rw [if_pos hmov] at h
        exact ih _ _ hv v r f top2 (migrate_self_store_current st top).symm
          (migrate_self_wf st top) hhv
          (by rw [migrate_self_next_epoch]; exact hne) h
      · rw [if_neg hmov] at h
        have hro : hihat_probe_ro st hv (self.last_slot + 1)
            (hatrack_bucket_index hv self.last_slot) = some b :=
          probe_claim_ro hwf.1 hhv hc (Nat.and_le_right)
        have hro2 : hihat_probe_ro st hv (st.last_slot + 1)
            (hatrack_bucket_index hv st.last_slot) = some b := by
          rw [hls]; exact hro
        have hblen : b < st.buckets.length := by
          rw [hlen2, hwf.1]; omega
        by_cases hlive : (st.buckets.getD b default).record.info &&& HIHAT_EPOCH_MASK ≠ 0
        · simp only [if_pos hlive] at h
          rw [Option.some.injEq, Prod.mk.injEq, Prod.mk.injEq] at h
          obtain ⟨hr, hf, htop2⟩ := h
          subst htop2
          have hget := get_after_record_set hro2 hblen
            ({ item := v, info := (st.buckets.getD b default).record.info } : hihat_record_t)
          rw [if_pos hlive] at hget
          rw [if_neg (not_not_intro hlive)]
          exact hget
        · simp only [if_neg hlive] at h
          rw [Option.some.injEq, Prod.mk.injEq, Prod.mk.injEq] at h
          obtain ⟨hr, hf, htop2⟩ := h
          subst htop2
          have hget := get_after_record_set hro2 hblen
            ({ item := v, info := top.next_epoch } : hihat_record_t)
          rw [if_pos hne] at hget
          rw [if_pos hlive]
          exact hget

theorem migrate_alias_spec (st : hihat_store_t) (top : hihat_t)
    (h : top.store_current = st) :
    (hihat_a_store_migrate st top).2.store_current = (hihat_a_store_migrate st top).1 ∧
    (hihat_a_store_migrate st top).2.item_count = top.item_count ∧
    (hihat_a_store_migrate st top).2.next_epoch = top.next_epoch ∧
    StoreWF (hihat_a_store_migrate st top).1 := by
  simp only [hihat_a_store_migrate]
  split
  · rename_i hcond; exact absurd h hcond
  · have hwf := storeWF_copy
      (store_new_wf (new_size_pow2
        (hihat_migrate_freeze st 0 0 (st.last_slot + 1)).1.last_slot
        (hihat_migrate_freeze st 0 0 (st.last_slot + 1)).2))
      (hihat_migrate_freeze st 0 0 (st.last_slot + 1)).1 0 0
      ((hihat_migrate_freeze st 0 0 (st.last_slot + 1)).1.last_slot + 1)
    obtain ⟨w1, w2⟩ := hwf
    split
    · exact ⟨rfl, rfl, rfl, by simpa using w1, by simpa using w2⟩
    · exact ⟨rfl, rfl, rfl, w1, w2⟩

theorem remove_then_get_aux : ∀ (fuel : Nat) (self : hihat_store_t) (top : hihat_t)
    (hv r : Nat) (top2 : hihat_t),
    self = top.store_current → StoreWF self →
    hihat_a_store_remove fuel self top hv = some (r, true, top2) →
    hihat_a_store_get top2.store_current hv = (0, false) := by
  intro fuel
  induction fuel with
  | zero =>
    intro self top hv r top2 _ _ h
    simp [hihat_a_store_remove] at h
  | succ fuel ih =>
    intro self top hv r top2 halias hwf h
    simp only [hihat_a_store_remove] at h
    rcases hro : hihat_probe_ro self hv (self.last_slot + 1)
        (hatrack_bucket_index hv self.last_slot) with _ | b
    case none =>
      rw [hro] at h
      simp at h
    case some =>
      simp only [hro] at h
      by_cases hmov : (self.buckets.getD b default).record.info &&& HIHAT_F_MOVING ≠ 0
      · rw [if_pos hmov] at h
        obtain ⟨m1, m2, m3, m4⟩ := migrate_alias_spec self top halias.symm
        exact ih _ _ hv r top2 m1.symm m4 h
      · rw [if_neg hmov] at h
        by_cases hempty : (self.buckets.getD b default).record.info = 0
        · rw [if_pos hempty] at h
          simp at h
        · rw [if_neg hempty] at h
          rw [Option.some.injEq, Prod.mk.injEq, Prod.mk.injEq] at h
          obtain ⟨hr, _, htop2⟩ := h
          subst htop2
          have hblen : b < self.buckets.length := by
            have := (probe_ro_some_hv hro Nat.and_le_right).2
            rw [hwf.1]; omega
          have hro2 : hihat_probe_ro self hv (self.last_slot + 1)
              (hatrack_bucket_index hv self.last_slot) = some b := hro
          have hget := get_after_record_set hro2 hblen
            ({ item := 0, info := 0 } : hihat_record_t)
          rw [if_neg (by simp)] at hget
          exact hget

/-- C1: in a sequential execution, immediately after a successful
put(k, v) with no intervening operation on k, get(k) returns v with
found = true; and immediately after a successful remove(k) with no
intervening operation on k, get(k) returns null (0) with found = false.
The two operations start from the same table state; fuel only bounds
the number of migrate-and-retry rounds of the sequential run. -/
theorem claim_C1_put_remove_then_get (fuel1 fuel2 : Nat) (top : hihat_t)
    (hv v r1 r2 : Nat) (f : Bool) (topA topB : hihat_t)
    (hwf : StoreWF top.store_current) (hhv : hv ≠ 0)
    (hne : top.next_epoch &&& HIHAT_EPOCH_MASK ≠ 0)
    (hput : hihat_a_put fuel1 top hv v = some (r1, f, topA))
    (hrem : hihat_a_remove fuel2 top hv = some (r2, true, topB)) :
    hihat_a_get topA hv = (v, true) ∧ hihat_a_get topB hv = (0, false) :=
  ⟨put_then_get_aux fuel1 top.store_current top hv v r1 f topA rfl hwf hhv hne hput,
   remove_then_get_aux fuel2 top.store_current top hv r2 topB rfl hwf hrem⟩

/-- Witness for C1 at a concrete table: 7 maps to 11; a put of 12 is then
seen by get, and a remove makes get miss. -/
theorem claim_C1_witness :
    hihat_a_get ((hihat_a_put 2 table_with_7 7 12).getD (0, false, hihat_a_init)).2.2 7
      = (12, true) ∧
    hihat_a_get ((hihat_a_remove 2 table_with_7 7).getD (0, false, hihat_a_init)).2.2 7
      = (0, false) :=
  claim_C1_put_remove_then_get 2 2 table_with_7 7 12 11 11 true
    ((hihat_a_put 2 table_with_7 7 12).getD (0, false, hihat_a_init)).2.2
    ((hihat_a_remove 2 table_with_7 7).getD (0, false, hihat_a_init)).2.2
    (by decide) (by decide) (by decide) (by decide) (by decide)

/-! Arithmetic helpers for the item counter. -/

theorem succ_mod_u64_ne (n : Nat) : (n + 1) % U64 ≠ n := by
  simp only [U64]
  omega

theorem pred_mod_u64_ne (n : Nat) : (n + (U64 - 1)) % U64 ≠ n := by
  simp only [U64]
  omega

/-- C10: get never triggers, joins, or waits for a migration: it is
defined without any reference to hihat_a_store_migrate, and when the
matching record carries the MOVING (and possibly MOVED) flag together
with non-zero epoch bits, get still returns the item with found = true,
reading only the store observed at entry. -/
theorem claim_C10_get_ignores_moving (s : hihat_store_t) (hv b : Nat)
    (hro : hihat_probe_ro s hv (s.last_slot + 1)
      (hatrack_bucket_index hv s.last_slot) = some b)
    (hmoving : (s.buckets.getD b default).record.info &&& HIHAT_F_MOVING ≠ 0)
    (hlive : (s.buckets.getD b default).record.info &&& HIHAT_EPOCH_MASK ≠ 0) :
    hihat_a_store_get s hv = ((s.buckets.getD b default).record.item, true) := by
  simp only [hihat_a_store_get, hro, if_pos hlive]

/-- Witness for C10 on a concrete store whose only bucket is marked
MOVING and MOVED. -/
theorem claim_C10_witness : hihat_a_store_get store_c10 4 =
    ((store_c10.buckets.getD 0 default).record.item, true) :=
  claim_C10_get_ignores_moving store_c10 4 0 (by decide) (by decide) (by decide)

theorem getD_mem {α : Type} {l : List α} {i : Nat} (h : i < l.length) (d : α) :
    l.getD i d ∈ l := by
  rw [List.getD_eq_getElem?_getD, List.getElem?_eq_getElem h]
  exact List.getElem_mem h

/-! Frame analysis of the three writers when they complete without
migrating (fuel 1): each modifies at most one bucket. -/

theorem put_frame_aux (top : hihat_t) (hv v r : Nat) (f : Bool) (topP : hihat_t)
    (hwf : StoreWF top.store_current)
    (hput : hihat_a_put 1 top hv v = some (r, f, topP)) :
    (∃ b, b ≤ top.store_current.last_slot ∧
      ∀ j, j ≠ b → topP.store_current.buckets.getD j default =
        top.store_current.buckets.getD j default) ∧
    (f = true → topP.item_count = top.item_count) ∧
    (f = false → topP.item_count ≠ top.item_count) := by
  simp only [hihat_a_put, hihat_a_store_put] at hput
  rcases hc : hihat_probe_claim top.store_current hv (top.store_current.last_slot + 1)
      (hatrack_bucket_index hv top.store_current.last_slot) with ⟨st, b⟩ | ⟨st⟩
  case migrate =>
    simp only [hc] at hput
    simp [hihat_a_store_put] at hput
  case found =>
    simp only [hc] at hput
    obtain ⟨hls, hthr, hlen2, hble, hhvb, hrec, hframe, hcases⟩ :=
      probe_claim_found_spec hwf.1 hc Nat.and_le_right
    by_cases hmov : (st.buckets.getD b default).record.info &&& HIHAT_F_MOVING ≠ 0
    · rw [if_pos hmov] at hput
      simp [hihat_a_store_put] at hput
    · rw [if_neg hmov] at hput
      have hblen : b < st.buckets.length := by rw [hlen2, hwf.1]; omega
      by_cases hlive : (st.buckets.getD b default).record.info &&& HIHAT_EPOCH_MASK ≠ 0
      · simp only [if_pos hlive] at hput
        rw [Option.some.injEq, Prod.mk.injEq, Prod.mk.injEq] at hput
        obtain ⟨hr, hf, htop⟩ := hput
        subst htop
        rw [if_neg (not_not_intro hlive)]
        refine ⟨⟨b, hble, ?_⟩, fun _ => rfl, fun hff => ?_⟩
        · intro j hj
          have h1 : (st.buckets.set b { st.buckets.getD b default with record := { item := v, info := (st.buckets.getD b default).record.info } }).getD j default = st.buckets.getD j default :=
            getD_set_ne (fun hx => hj hx.symm) _ _
          exact h1.trans (hframe j hj)
        · rw [← hf] at hff
          simp at hff
          rw [← List.getD_eq_getElem?_getD] at hff
          exact (hlive hff).elim
      · simp only [if_neg hlive] at hput
        rw [Option.some.injEq, Prod.mk.injEq, Prod.mk.injEq] at hput
        obtain ⟨hr, hf, htop⟩ := hput
        subst htop
        rw [if_pos hlive]
        refine ⟨⟨b, hble, ?_⟩, fun htt => ?_, fun _ => ?_⟩
        · intro j hj
          have h1 : (st.buckets.set b { st.buckets.getD b default with record := { item := v, info := top.next_epoch } }).getD j default = st.buckets.getD j default :=
            getD_set_ne (fun hx => hj hx.symm) _ _
          exact h1.trans (hframe j hj)
        · rw [← hf] at htt
          simp at htt
          rw [← List.getD_eq_getElem?_getD] at htt
          exact (hlive htt).elim
        · exact succ_mod_u64_ne _

theorem add_frame_aux (top : hihat_t) (hv v : Nat) (f : Bool) (topA : hihat_t)
    (hwf : StoreWF top.store_current) (hue : UnreservedEmpty top.store_current)
    (hadd : hihat_a_add 1 top hv v = some (f, topA)) :
    (f = true → (∃ b, b ≤ top.store_current.last_slot ∧
      ∀ j, j ≠ b → topA.store_current.buckets.getD j default =
        top.store_current.buckets.getD j default) ∧
      topA.item_count ≠ top.item_count) ∧
    (f = false → topA = top) := by
  simp only [hihat_a_add, hihat_a_store_add] at hadd
  rcases hc : hihat_probe_claim top.store_current hv (top.store_current.last_slot + 1)
      (hatrack_bucket_index hv top.store_current.last_slot) with ⟨st, b⟩ | ⟨st⟩
  case migrate =>
    simp only [hc] at hadd
    simp [hihat_a_store_add] at hadd
  case found =>
    simp only [hc] at hadd
    obtain ⟨hls, hthr, hlen2, hble, hhvb, hrec, hframe, hcases⟩ :=
      probe_claim_found_spec hwf.1 hc Nat.and_le_right
    by_cases hmov : (st.buckets.getD b default).record.info &&& HIHAT_F_MOVING ≠ 0
    · rw [if_pos hmov] at hadd
      simp [hihat_a_store_add] at hadd
    · rw [if_neg hmov] at hadd
      have hblen : b < st.buckets.length := by rw [hlen2, hwf.1]; omega
      by_cases hocc : (st.buckets.getD b default).record.info ≠ 0
      · rw [if_pos hocc] at hadd
        rw [Option.some.injEq, Prod.mk.injEq] at hadd
        obtain ⟨hf, htop⟩ := hadd
        subst htop
        have hstself : st = top.store_current := by
          rcases hcases with ⟨_, hst⟩ | ⟨hz, _, _⟩
          · exact hst
          · exfalso
            have hrec0 : (top.store_current.buckets.getD b default).record =
                { item := 0, info := 0 } := by
              apply hue
              · exact getD_mem (by omega) _
              · exact hz
            rw [hrec, hrec0] at hocc
            exact hocc rfl
        refine ⟨fun htt => ?_, fun _ => ?_⟩
        · rw [← hf] at htt; simp at htt
        · rw [hstself]
      · rw [if_neg hocc] at hadd
        rw [Option.some.injEq, Prod.mk.injEq] at hadd
        obtain ⟨hf, htop⟩ := hadd
        subst htop
        refine ⟨fun _ => ⟨⟨b, hble, ?_⟩, ?_⟩, fun hff => ?_⟩
        · intro j hj
          have h1 : (st.buckets.set b { st.buckets.getD b default with record := { item := v, info := top.next_epoch } }).getD j default = st.buckets.getD j default :=
            getD_set_ne (fun hx => hj hx.symm) _ _
          exact h1.trans (hframe j hj)
        · exact succ_mod_u64_ne _
        · rw [← hf] at hff; simp at hff

theorem remove_frame_aux (top : hihat_t) (hv r : Nat) (f : Bool) (topR : hihat_t)
    (hwf : StoreWF top.store_current)
    (hrem : hihat_a_remove 1 top hv = some (r, f, topR)) :
    (f = true → (∃ b, b ≤ top.store_current.last_slot ∧
      ∀ j, j ≠ b → topR.store_current.buckets.getD j default =
        top.store_current.buckets.getD j default) ∧
      topR.item_count ≠ top.item_count) ∧
    (f = false → topR = top) := by
  simp only [hihat_a_remove, hihat_a_store_remove] at hrem
  rcases hro : hihat_probe_ro top.store_current hv (top.store_current.last_slot + 1)
      (hatrack_bucket_index hv top.store_current.last_slot) with _ | b
  case none =>
    rw [hro] at hrem
    rw [Option.some.injEq, Prod.mk.injEq, Prod.mk.injEq] at hrem
    obtain ⟨hr, hf, htop⟩ := hrem
    subst htop
    exact ⟨fun htt => absurd (hf.trans htt) (by simp), fun _ => rfl⟩
  case some =>
    simp only [hro] at hrem
    by_cases hmov : (top.store_current.buckets.getD b default).record.info &&& HIHAT_F_MOVING ≠ 0
    · rw [if_pos hmov] at hrem
      simp [hihat_a_store_remove] at hrem
    · rw [if_neg hmov] at hrem
      have hble : b ≤ top.store_current.last_slot :=
        (probe_ro_some_hv hro Nat.and_le_right).2
      have hblen : b < top.store_current.buckets.length := by rw [hwf.1]; omega
      by_cases hempty : (top.store_current.buckets.getD b default).record.info = 0
      · rw [if_pos hempty] at hrem
        rw [Option.some.injEq, Prod.mk.injEq, Prod.mk.injEq] at hrem
        obtain ⟨hr, hf, htop⟩ := hrem
        subst htop
        exact ⟨fun htt => absurd (hf.trans htt) (by simp), fun _ => rfl⟩
      · rw [if_neg hempty] at hrem
        rw [Option.some.injEq, Prod.mk.injEq, Prod.mk.injEq] at hrem
        obtain ⟨hr, hf, htop⟩ := hrem
        subst htop
        refine ⟨fun _ => ⟨⟨b, hble, ?_⟩, ?_⟩, fun hff => ?_⟩
        · intro j hj
          exact getD_set_ne (fun hx => hj hx.symm) _ _
        · exact pred_mod_u64_ne _
        · rw [← hf] at hff; simp at hff

/-- C7 counterexample: on a table where hash 7 is live, put(7, 12)
succeeds (it returns the prior item with found = true) yet
top.item_count is unchanged, so a successful put does not always change
top.item_count. -/
theorem claim_C7_counterexample :
    (hihat_a_put 1 table_with_7 7 12).isSome = true ∧
    ((hihat_a_put 1 table_with_7 7 12).getD (0, false, hihat_a_init)).2.1 = true ∧
    ((hihat_a_put 1 table_with_7 7 12).getD (0, false, hihat_a_init)).2.2.item_count =
      table_with_7.item_count := by
  decide

/-- C7 amended: every put, add, or remove that completes without
migrating modifies at most one bucket of the current store; a put that
installs a new item (found = false), a successful add, and a successful
remove change top.item_count, while a put that replaces a live item
(found = true) leaves top.item_count unchanged; a failed add and a
failed remove leave the whole table unchanged.  Readers (get, view) are
pure functions of the observed store in this embedding and modify no
state. -/
theorem claim_C7_frame_amended (top : hihat_t) (hv v r1 r3 : Nat)
    (f1 f2 f3 : Bool) (topP topA topR : hihat_t)
    (hwf : StoreWF top.store_current) (hue : UnreservedEmpty top.store_current)
    (hput : hihat_a_put 1 top hv v = some (r1, f1, topP))
    (hadd : hihat_a_add 1 top hv v = some (f2, topA))
    (hrem : hihat_a_remove 1 top hv = some (r3, f3, topR)) :
    (OneBucketFrame topP.store_current top.store_current ∧
      (f1 = true → topP.item_count = top.item_count) ∧
      (f1 = false → topP.item_count ≠ top.item_count)) ∧
    ((f2 = true → OneBucketFrame topA.store_current top.store_current ∧
        topA.item_count ≠ top.item_count) ∧
      (f2 = false → topA = top)) ∧
    ((f3 = true → OneBucketFrame topR.store_current top.store_current ∧
        topR.item_count ≠ top.item_count) ∧
      (f3 = false → topR = top)) :=
  ⟨put_frame_aux top hv v r1 f1 topP hwf hput,
   add_frame_aux top hv v f2 topA hwf hue hadd,
   remove_frame_aux top hv r3 f3 topR hwf hrem⟩

/-- Witness for the amended C7 on table_with_7: the replacing put keeps
item_count, the failed add leaves the table unchanged, the successful
remove decrements. -/
theorem claim_C7_witness :
    (OneBucketFrame c7_topP.store_current table_with_7.store_current ∧
      (true = true → c7_topP.item_count = table_with_7.item_count) ∧
      (true = false → c7_topP.item_count ≠ table_with_7.item_count)) ∧
    ((false = true → OneBucketFrame c7_topA.store_current table_with_7.store_current ∧
        c7_topA.item_count ≠ table_with_7.item_count) ∧
      (false = false → c7_topA = table_with_7)) ∧
    ((true = true → OneBucketFrame c7_topR.store_current table_with_7.store_current ∧
        c7_topR.item_count ≠ table_with_7.item_count) ∧
      (true = false → c7_topR = table_with_7)) :=
  claim_C7_frame_amended table_with_7 7 12 11 11 true false true c7_topP c7_topA c7_topR
    (by decide) (by decide) (by decide) (by decide) (by decide)

theorem getD_of_le {α : Type} {l : List α} {j : Nat} (h : l.length ≤ j) (d : α) :
    l.getD j d = d := by
  rw [List.getD_eq_getElem?_getD, List.getElem?_eq_none h]
  rfl

theorem getD_pred {α : Type} {l : List α} {P : α → Prop} {d : α}
    (h : ∀ b ∈ l, P b) (hd : P d) (j : Nat) : P (l.getD j d) := by
  by_cases hj : j < l.length
  · exact h _ (getD_mem hj d)
  · rw [getD_of_le (by omega) d]
    exact hd

theorem migrate_freeze_succ (s : hihat_store_t) (nu i n : Nat) :
    hihat_migrate_freeze s nu i (n + 1) =
      hihat_migrate_freeze
        (if (s.buckets.getD i default).record.info &&& HIHAT_F_MOVING ≠ 0 then s
         else { s with buckets := s.buckets.set i (freeze_bucket (s.buckets.getD i default)) })
        (if (s.buckets.getD i default).record.info &&& HIHAT_EPOCH_MASK ≠ 0 then nu + 1 else nu)
        (i + 1) n := by
  simp only [hihat_migrate_freeze, freeze_bucket]
  split
  · rfl
  · rfl

theorem migrate_freeze_bucket : ∀ (n : Nat) (s : hihat_store_t) (nu i j : Nat),
    (hihat_migrate_freeze s nu i n).1.buckets.getD j default =
      (if i ≤ j ∧ j < i + n ∧ j < s.buckets.length then
        freeze_bucket (s.buckets.getD j default)
       else s.buckets.getD j default) := by
  intro n
  induction n with
  | zero =>
    intro s nu i j
    have hc : ¬ (i ≤ j ∧ j < i + 0 ∧ j < s.buckets.length) := by omega
    rw [if_neg hc]
    rfl
  | succ n ih =>
    intro s nu i j
    rw [migrate_freeze_succ]
    by_cases hmv : (s.buckets.getD i default).record.info &&& HIHAT_F_MOVING ≠ 0
    · rw [if_pos hmv, ih s _ (i + 1) j]
      by_cases hj : j = i
      · subst hj
        rw [if_neg (by omega)]
        by_cases hlen : j < s.buckets.length
        · rw [if_pos ⟨by omega, by omega, hlen⟩]
          simp only [freeze_bucket, if_pos hmv]
        · rw [if_neg (by omega)]
      · by_cases hcond : i + 1 ≤ j ∧ j < i + 1 + n ∧ j < s.buckets.length
        · rw [if_pos hcond, if_pos ⟨by omega, by omega, hcond.2.2⟩]
        · rw [if_neg hcond, if_neg (by
            intro hx
            exact hcond ⟨by omega, by omega, hx.2.2⟩)]
    · rw [if_neg hmv, ih _ _ (i + 1) j]
      simp only [List.length_set]
      by_cases hj : j = i
      · subst hj
        rw [if_neg (by omega)]
        by_cases hlen : j < s.buckets.length
        · rw [getD_set_self hlen, if_pos ⟨by omega, by omega, hlen⟩]
        · rw [if_neg (by omega)]
          have hge : s.buckets.length ≤ j := by omega
          rw [getD_of_le hge default]
          exact getD_of_le (by simpa using hge) default
      · rw [getD_set_ne (fun hx => hj hx.symm)]
        by_cases hcond : i + 1 ≤ j ∧ j < i + 1 + n ∧ j < s.buckets.length
        · rw [if_pos hcond, if_pos ⟨by omega, by omega, hcond.2.2⟩]
        · rw [if_neg hcond, if_neg (by
            intro hx
            exact hcond ⟨by omega, by omega, hx.2.2⟩)]

theorem migrate_copy_old_bucket : ∀ (n : Nat) (s ns : hihat_store_t) (nu i j : Nat),
    (hihat_migrate_copy s ns nu i n).1.buckets.getD j default =
      (if i ≤ j ∧ j < i + n ∧ j < s.buckets.length ∧
          (s.buckets.getD j default).record.info &&& HIHAT_F_MOVED = 0 then
        moved_bucket (s.buckets.getD j default)
       else s.buckets.getD j default) := by
  intro n
  induction n with
  | zero =>
    intro s ns nu i j
    have hc : ¬ (i ≤ j ∧ j < i + 0 ∧ j < s.buckets.length ∧
        (s.buckets.getD j default).record.info &&& HIHAT_F_MOVED = 0) := by
      intro hx
      omega
    rw [if_neg hc]
    rfl
  | succ n ih =>
    intro s ns nu i j
    simp only [hihat_migrate_copy]
    split
    · rename_i hmved
      rw [ih s ns _ (i + 1) j]
      by_cases hj : j = i
      · subst hj
        rw [if_neg (by omega), if_neg (fun hx => hmved hx.2.2.2)]
      · by_cases hcond : i + 1 ≤ j ∧ j < i + 1 + n ∧ j < s.buckets.length ∧
            (s.buckets.getD j default).record.info &&& HIHAT_F_MOVED = 0
        · rw [if_pos hcond, if_pos ⟨by omega, by omega, hcond.2.2⟩]
        · rw [if_neg hcond, if_neg (by
            intro hx
            exact hcond ⟨by omega, by omega, hx.2.2⟩)]
    · rename_i hmved
      rw [ih _ _ _ (i + 1) j]
      simp only [List.length_set]
      by_cases hj : j = i
      · subst hj
        rw [if_neg (by omega)]
        by_cases hlen : j < s.buckets.length
        · rw [getD_set_self hlen,
            if_pos ⟨by omega, by omega, hlen, by simpa using hmved⟩]
          rfl
        · rw [if_neg (by omega)]
          have hge : s.buckets.length ≤ j := by omega
          rw [getD_of_le hge default]
          exact getD_of_le (by simpa using hge) default
      · rw [getD_set_ne (fun hx => hj hx.symm)]
        by_cases hcond : i + 1 ≤ j ∧ j < i + 1 + n ∧ j < s.buckets.length ∧
            (s.buckets.getD j default).record.info &&& HIHAT_F_MOVED = 0
        · rw [if_pos hcond, if_pos ⟨by omega, by omega, hcond.2.2⟩]
        · rw [if_neg hcond, if_neg (by
            intro hx
            exact hcond ⟨by omega, by omega, hx.2.2⟩)]

/-! Flag monotonicity of the migration phases and of the writers. -/

theorem update_flags_aux (s : hihat_store_t) (b : Nat) (rec : hihat_record_t)
    (hnewinv : rec.info &&& HIHAT_F_MOVED ≠ 0 → rec.info &&& HIHAT_F_MOVING ≠ 0)
    (hold : (s.buckets.getD b default).record.info &&& HIHAT_F_MOVING = 0)
    (hinv : MovedImpliesMovingAll s) :
    MovingMono s
      { s with buckets := s.buckets.set b { s.buckets.getD b default with record := rec } } ∧
    MovedImpliesMovingAll
      { s with buckets := s.buckets.set b { s.buckets.getD b default with record := rec } } := by
  have hs' : ∀ j : Nat,
      ((s.buckets.set b { s.buckets.getD b default with record := rec }).getD j default) =
        if b = j ∧ b < s.buckets.length then { s.buckets.getD b default with record := rec }
        else s.buckets.getD j default := by
    intro j
    by_cases hjb : b = j
    · subst hjb
      by_cases hbl : b < s.buckets.length
      · rw [getD_set_self hbl, if_pos ⟨rfl, hbl⟩]
      · rw [if_neg (fun hx => hbl hx.2)]
        have hge : s.buckets.length ≤ b := by omega
        rw [getD_of_le hge default]
        exact getD_of_le (by simpa using hge) default
    · rw [getD_set_ne hjb, if_neg (fun hx => hjb hx.1)]
  constructor
  · intro j hj
    show ((s.buckets.set b _).getD j default).record.info &&& HIHAT_F_MOVING ≠ 0
    rw [hs' j]
    by_cases hc : b = j ∧ b < s.buckets.length
    · exfalso
      obtain ⟨hbj, _⟩ := hc
      rw [← hbj] at hj
      exact hj hold
    · rw [if_neg hc]
      exact hj
  · intro j
    show ((s.buckets.set b _).getD j default).record.info &&& HIHAT_F_MOVED ≠ 0 → _
    rw [hs' j]
    by_cases hc : b = j ∧ b < s.buckets.length
    · rw [if_pos hc]
      exact hnewinv
    · rw [if_neg hc]
      exact hinv j

theorem probe_claim_records_eq {s : hihat_store_t} {hv : Nat}
    (hlen : s.buckets.length = s.last_slot + 1)
    {n bix : Nat} {st : hihat_store_t} {b : Nat}
    (hc : hihat_probe_claim s hv n bix = .found st b) (hb : bix ≤ s.last_slot) :
    ∀ j : Nat, (st.buckets.getD j default).record = (s.buckets.getD j default).record := by
  obtain ⟨_, _, _, _, _, hrec, hframe, _⟩ := probe_claim_found_spec hlen hc hb
  intro j
  by_cases hj : j = b
  · subst hj; exact hrec
  · rw [hframe j hj]

theorem freeze_moving_mono (s : hihat_store_t) :
    MovingMono s (hihat_migrate_freeze s 0 0 (s.last_slot + 1)).1 := by
  intro j hj
  rw [migrate_freeze_bucket]
  split
  · simp only [freeze_bucket, if_pos hj]
    exact hj
  · exact hj

theorem freeze_minv (s : hihat_store_t) (hwf : StoreWF s) :
    MovedImpliesMovingAll (hihat_migrate_freeze s 0 0 (s.last_slot + 1)).1 := by
  intro j
  rw [migrate_freeze_bucket]
  split
  · intro _
    simp only [freeze_bucket]
    split
    · assumption
    · simp only []
      split
      · rw [moving_or_moving]
        decide
      · show (HIHAT_F_MOVING ||| HIHAT_F_MOVED) &&& HIHAT_F_MOVING ≠ 0
        decide
  · rename_i hcond
    have hge : s.buckets.length ≤ j := by
      by_contra hlt
      push_neg at hlt
      refine hcond ⟨Nat.zero_le _, ?_, hlt⟩
      rw [hwf.1] at hlt
      omega
    rw [getD_of_le hge default]
    intro hx
    exact absurd (by decide) hx

theorem copy_moving_mono (sf ns : hihat_store_t) :
    MovingMono sf (hihat_migrate_copy sf ns 0 0 (sf.last_slot + 1)).1 := by
  intro j hj
  rw [migrate_copy_old_bucket]
  split
  · show (moved_bucket _).record.info &&& HIHAT_F_MOVING ≠ 0
    simp only [moved_bucket]
    rw [moved_or_moving]
    exact hj
  · exact hj

theorem copy_minv (sf ns : hihat_store_t) (hwf : StoreWF sf)
    (hall : ∀ b ∈ sf.buckets, b.record.info &&& HIHAT_F_MOVING ≠ 0) :
    MovedImpliesMovingAll (hihat_migrate_copy sf ns 0 0 (sf.last_slot + 1)).1 := by
  intro j
  rw [migrate_copy_old_bucket]
  split
  · rename_i hcond
    intro _
    show (moved_bucket _).record.info &&& HIHAT_F_MOVING ≠ 0
    simp only [moved_bucket]
    rw [moved_or_moving]
    exact hall _ (getD_mem hcond.2.2.1 _)
  · rename_i hcond
    by_cases hlen : j < sf.buckets.length
    · intro _
      exact hall _ (getD_mem hlen _)
    · have hge : sf.buckets.length ≤ j := by omega
      rw [getD_of_le hge default]
      intro hx
      exact absurd (by decide) hx

theorem put_flags_aux (top : hihat_t) (hv v r : Nat) (f : Bool) (topP : hihat_t)
    (hwf : StoreWF top.store_current)
    (hinv : MovedImpliesMovingAll top.store_current)
    (hne2 : top.next_epoch < 2 ^ 62)
    (hput : hihat_a_put 1 top hv v = some (r, f, topP)) :
    MovingMono top.store_current topP.store_current ∧
    MovedImpliesMovingAll topP.store_current := by
  simp only [hihat_a_put, hihat_a_store_put] at hput
  rcases hc : hihat_probe_claim top.store_current hv (top.store_current.last_slot + 1)
      (hatrack_bucket_index hv top.store_current.last_slot) with ⟨st, b⟩ | ⟨st⟩
  case migrate =>
    simp only [hc] at hput
    simp [hihat_a_store_put] at hput
  case found =>
    simp only [hc] at hput
    have hrecs := probe_claim_records_eq hwf.1 hc Nat.and_le_right
    have hinv2 : MovedImpliesMovingAll st := by
      intro j
      rw [hrecs j]
      exact hinv j
    by_cases hmov : (st.buckets.getD b default).record.info &&& HIHAT_F_MOVING ≠ 0
    · rw [if_pos hmov] at hput
      simp [hihat_a_store_put] at hput
    · rw [if_neg hmov] at hput
      have hold : (st.buckets.getD b default).record.info &&& HIHAT_F_MOVING = 0 :=
        not_not.mp hmov
      by_cases hlive : (st.buckets.getD b default).record.info &&& HIHAT_EPOCH_MASK ≠ 0
      · simp only [if_pos hlive] at hput
        rw [Option.some.injEq, Prod.mk.injEq, Prod.mk.injEq] at hput
        obtain ⟨_, _, htop⟩ := hput
        subst htop
        have hmvd0 : (st.buckets.getD b default).record.info &&& HIHAT_F_MOVED = 0 := by
          by_contra hx
          exact hmov (hinv2 b hx)
        obtain ⟨hM, hI⟩ := update_flags_aux st b
          { item := v, info := (st.buckets.getD b default).record.info }
          (fun hx => (hx hmvd0).elim) hold hinv2
        rw [if_neg (not_not_intro hlive)]
        exact ⟨fun j hj => hM j (by rw [hrecs j]; exact hj), hI⟩
      · simp only [if_neg hlive] at hput
        rw [Option.some.injEq, Prod.mk.injEq, Prod.mk.injEq] at hput
        obtain ⟨_, _, htop⟩ := hput
        subst htop
        obtain ⟨hM, hI⟩ := update_flags_aux st b
          { item := v, info := top.next_epoch }
          (fun hx => (hx (lt_mask_and_flag_zero hne2 (by omega))).elim) hold hinv2
        rw [if_pos hlive]
        exact ⟨fun j hj => hM j (by rw [hrecs j]; exact hj), hI⟩

theorem add_flags_aux (top : hihat_t) (hv v : Nat) (f : Bool) (topA : hihat_t)
    (hwf : StoreWF top.store_current)
    (hinv : MovedImpliesMovingAll top.store_current)
    (hne2 : top.next_epoch < 2 ^ 62)
    (hadd : hihat_a_add 1 top hv v = some (f, topA)) :
    MovingMono top.store_current topA.store_current ∧
    MovedImpliesMovingAll topA.store_current := by
  simp only [hihat_a_add, hihat_a_store_add] at hadd
  rcases hc : hihat_probe_claim top.store_current hv (top.store_current.last_slot + 1)
      (hatrack_bucket_index hv top.store_current.last_slot) with ⟨st, b⟩ | ⟨st⟩
  case migrate =>
    simp only [hc] at hadd
    simp [hihat_a_store_add] at hadd
  case found =>
    simp only [hc] at hadd
    have hrecs := probe_claim_records_eq hwf.1 hc Nat.and_le_right
    have hinv2 : MovedImpliesMovingAll st := by
      intro j
      rw [hrecs j]
      exact hinv j
    by_cases hmov : (st.buckets.getD b default).record.info &&& HIHAT_F_MOVING ≠ 0
    · rw [if_pos hmov] at hadd
      simp [hihat_a_store_add] at hadd
    · rw [if_neg hmov] at hadd
      have hold : (st.buckets.getD b default).record.info &&& HIHAT_F_MOVING = 0 :=
        not_not.mp hmov
      by_cases hocc : (st.buckets.getD b default).record.info ≠ 0
      · rw [if_pos hocc] at hadd
        rw [Option.some.injEq, Prod.mk.injEq] at hadd
        obtain ⟨_, htop⟩ := hadd
        subst htop
        exact ⟨fun j hj => by rw [hrecs j]; exact hj, hinv2⟩
      · rw [if_neg hocc] at hadd
        rw [Option.some.injEq, Prod.mk.injEq] at hadd
        obtain ⟨_, htop⟩ := hadd
        subst htop
        obtain ⟨hM, hI⟩ := update_flags_aux st b
          { item := v, info := top.next_epoch }
          (fun hx => (hx (lt_mask_and_flag_zero hne2 (by omega))).elim) hold hinv2
        exact ⟨fun j hj => hM j (by rw [hrecs j]; exact hj), hI⟩

theorem replace_flags_aux (top : hihat_t) (hv v r : Nat) (f : Bool) (topR : hihat_t)
    (hwf : StoreWF top.store_current)
    (hinv : MovedImpliesMovingAll top.store_current)
    (hrep : hihat_a_replace 1 top hv v = some (r, f, topR)) :
    MovingMono top.store_current topR.store_current ∧
    MovedImpliesMovingAll topR.store_current := by
  simp only [hihat_a_replace, hihat_a_store_replace] at hrep
  rcases hro : hihat_probe_ro top.store_current hv (top.store_current.last_slot + 1)
      (hatrack_bucket_index hv top.store_current.last_slot) with _ | b
  case none =>
    rw [hro] at hrep
    rw [Option.some.injEq, Prod.mk.injEq, Prod.mk.injEq] at hrep
    obtain ⟨_, _, htop⟩ := hrep
    subst htop
    exact ⟨fun j hj => hj, hinv⟩
  case some =>
    simp only [hro] at hrep
    by_cases hmov : (top.store_current.buckets.getD b default).record.info &&&
        HIHAT_F_MOVING ≠ 0
    · rw [if_pos hmov] at hrep
      simp [hihat_a_store_replace] at hrep
    · rw [if_neg hmov] at hrep
      have hold : (top.store_current.buckets.getD b default).record.info &&&
          HIHAT_F_MOVING = 0 := not_not.mp hmov
      by_cases hempty : (top.store_current.buckets.getD b default).record.info = 0
      · rw [if_pos hempty] at hrep
        rw [Option.some.injEq, Prod.mk.injEq, Prod.mk.injEq] at hrep
        obtain ⟨_, _, htop⟩ := hrep
        subst htop
        exact ⟨fun j hj => hj, hinv⟩
      · rw [if_neg hempty] at hrep
        rw [Option.some.injEq, Prod.mk.injEq, Prod.mk.injEq] at hrep
        obtain ⟨_, _, htop⟩ := hrep
        subst htop
        have hmvd0 : (top.store_current.buckets.getD b default).record.info &&&
            HIHAT_F_MOVED = 0 := by
          by_contra hx
          exact hmov (hinv b hx)
        obtain ⟨hM, hI⟩ := update_flags_aux top.store_current b
          { item := v, info := (top.store_current.buckets.getD b default).record.info }
          (fun hx => (hx hmvd0).elim) hold hinv
        exact ⟨hM, hI⟩

theorem remove_flags_aux (top : hihat_t) (hv r : Nat) (f : Bool) (topR : hihat_t)
    (hwf : StoreWF top.store_current)
    (hinv : MovedImpliesMovingAll top.store_current)
    (hrem : hihat_a_remove 1 top hv = some (r, f, topR)) :
    MovingMono top.store_current topR.store_current ∧
    MovedImpliesMovingAll topR.store_current := by
  simp only [hihat_a_remove, hihat_a_store_remove] at hrem
  rcases hro : hihat_probe_ro top.store_current hv (top.store_current.last_slot + 1)
      (hatrack_bucket_index hv top.store_current.last_slot) with _ | b
  case none =>
    rw [hro] at hrem
    rw [Option.some.injEq, Prod.mk.injEq, Prod.mk.injEq] at hrem
    obtain ⟨_, _, htop⟩ := hrem
    subst htop
    exact ⟨fun j hj => hj, hinv⟩
  case some =>
    simp only [hro] at hrem
    by_cases hmov : (top.store_current.buckets.getD b default).record.info &&&
        HIHAT_F_MOVING ≠ 0
    · rw [if_pos hmov] at hrem
      simp [hihat_a_store_remove] at hrem
    · rw [if_neg hmov] at hrem
      have hold : (top.store_current.buckets.getD b default).record.info &&&
          HIHAT_F_MOVING = 0 := not_not.mp hmov
      by_cases hempty : (top.store_current.buckets.getD b default).record.info = 0
      · rw [if_pos hempty] at hrem
        rw [Option.some.injEq, Prod.mk.injEq, Prod.mk.injEq] at hrem
        obtain ⟨_, _, htop⟩ := hrem
        subst htop
        exact ⟨fun j hj => hj, hinv⟩
      · rw [if_neg hempty] at hrem
        rw [Option.some.injEq, Prod.mk.injEq, Prod.mk.injEq] at hrem
        obtain ⟨_, _, htop⟩ := hrem
        subst htop
        obtain ⟨hM, hI⟩ := update_flags_aux top.store_current b
          { item := 0, info := 0 }
          (fun hx => (hx (by decide)).elim) hold hinv
        exact ⟨hM, hI⟩

/-- C9: within a store, the MOVING flag is monotonic: the freeze and
copy phases of migration only ever add MOVING or MOVED to a record, and
a writer (put, add, replace or remove) completing without migrating
never clears MOVING on any bucket (it only installs into a bucket it
has checked to be free of MOVING); moreover every record carrying MOVED
also carries MOVING, an invariant established by freezing and preserved
by copying and by all four writers. -/
theorem claim_C9_moving_monotone (s sf ns : hihat_store_t) (top : hihat_t)
    (hv v r1 r2 r3 : Nat) (f1 f2 f3 f4 : Bool)
    (topP topA topR2 topR : hihat_t)
    (hwfs : StoreWF s) (hwfsf : StoreWF sf)
    (hallm : ∀ b ∈ sf.buckets, b.record.info &&& HIHAT_F_MOVING ≠ 0)
    (hwf : StoreWF top.store_current)
    (hinvmem : ∀ b ∈ top.store_current.buckets,
      b.record.info &&& HIHAT_F_MOVED ≠ 0 → b.record.info &&& HIHAT_F_MOVING ≠ 0)
    (hne2 : top.next_epoch < 2 ^ 62)
    (hput : hihat_a_put 1 top hv v = some (r1, f1, topP))
    (hadd : hihat_a_add 1 top hv v = some (f2, topA))
    (hrep : hihat_a_replace 1 top hv v = some (r2, f3, topR2))
    (hrem : hihat_a_remove 1 top hv = some (r3, f4, topR)) :
    (MovingMono s (hihat_migrate_freeze s 0 0 (s.last_slot + 1)).1 ∧
      MovedImpliesMovingAll (hihat_migrate_freeze s 0 0 (s.last_slot + 1)).1) ∧
    (MovingMono sf (hihat_migrate_copy sf ns 0 0 (sf.last_slot + 1)).1 ∧
      MovedImpliesMovingAll (hihat_migrate_copy sf ns 0 0 (sf.last_slot + 1)).1) ∧
    (MovingMono top.store_current topP.store_current ∧
      MovedImpliesMovingAll topP.store_current) ∧
    (MovingMono top.store_current topA.store_current ∧
      MovedImpliesMovingAll topA.store_current) ∧
    (MovingMono top.store_current topR2.store_current ∧
      MovedImpliesMovingAll topR2.store_current) ∧
    (MovingMono top.store_current topR.store_current ∧
      MovedImpliesMovingAll topR.store_current) := by
  have hinv : MovedImpliesMovingAll top.store_current := fun j =>
    getD_pred hinvmem (fun hx => absurd (by decide) hx) j
  exact ⟨⟨freeze_moving_mono s, freeze_minv s hwfs⟩,
    ⟨copy_moving_mono sf ns, copy_minv sf ns hwfsf hallm⟩,
    put_flags_aux top hv v r1 f1 topP hwf hinv hne2 hput,
    add_flags_aux top hv v f2 topA hwf hinv hne2 hadd,
    replace_flags_aux top hv v r2 f3 topR2 hwf hinv hrep,
    remove_flags_aux top hv r3 f4 topR hwf hinv hrem⟩

/-- Witness for C9 at a concrete frozen store and a concrete table. -/
theorem claim_C9_witness :
    (MovingMono store_c10 (hihat_migrate_freeze store_c10 0 0 (store_c10.last_slot + 1)).1 ∧
      MovedImpliesMovingAll (hihat_migrate_freeze store_c10 0 0 (store_c10.last_slot + 1)).1) ∧
    (MovingMono (hihat_migrate_freeze store_c10 0 0 4).1
      (hihat_migrate_copy (hihat_migrate_freeze store_c10 0 0 4).1 (hihat_a_store_new 64) 0 0
        ((hihat_migrate_freeze store_c10 0 0 4).1.last_slot + 1)).1 ∧
      MovedImpliesMovingAll
        (hihat_migrate_copy (hihat_migrate_freeze store_c10 0 0 4).1 (hihat_a_store_new 64) 0 0
          ((hihat_migrate_freeze store_c10 0 0 4).1.last_slot + 1)).1) ∧
    (MovingMono table_with_7.store_current c7_topP.store_current ∧
      MovedImpliesMovingAll c7_topP.store_current) ∧
    (MovingMono table_with_7.store_current c7_topA.store_current ∧
      MovedImpliesMovingAll c7_topA.store_current) ∧
    (MovingMono table_with_7.store_current c9_topR2.store_current ∧
      MovedImpliesMovingAll c9_topR2.store_current) ∧
    (MovingMono table_with_7.store_current c7_topR.store_current ∧
      MovedImpliesMovingAll c7_topR.store_current) :=
  claim_C9_moving_monotone store_c10 (hihat_migrate_freeze store_c10 0 0 4).1
    (hihat_a_store_new 64) table_with_7 7 12 11 11 11 true false true true
    c7_topP c7_topA c9_topR2 c7_topR
    (by decide) (by decide) (by decide) (by decide) (by decide) (by decide)
    (by decide) (by decide) (by decide) (by decide)

/-! Probe coverage: on a power-of-two table the walk reaches every index. -/

theorem probe_walk_mod {m : Nat} : ∀ (t bix : Nat), bix < 2 ^ m →
    probe_walk (2 ^ m - 1) bix t = (bix + t) % 2 ^ m := by
  intro t
  induction t with
  | zero =>
    intro bix hb
    simp only [probe_walk]
    rw [Nat.add_zero, Nat.mod_eq_of_lt hb]
  | succ t ih =>
    intro bix hb
    have hpos : 0 < 2 ^ m := Nat.two_pow_pos m
    simp only [probe_walk]
    have hmask : (bix + 1) &&& (2 ^ m - 1) = (bix + 1) % 2 ^ m :=
      Nat.and_pow_two_sub_one_eq_mod (bix + 1) m
    rw [hmask, ih _ (Nat.mod_lt _ hpos)]
    rw [Nat.mod_add_mod]
    congr 1
    omega

theorem exists_unreserved_hit (ns : hihat_store_t)
    (hlen : ns.buckets.length = ns.last_slot + 1)
    (hpow : (ns.last_slot + 1) &&& ns.last_slot = 0)
    (hcc : hv_claimed_count ns < ns.buckets.length)
    (bix : Nat) (hb : bix ≤ ns.last_slot) :
    ∃ t, t < ns.last_slot + 1 ∧
      (ns.buckets.getD (probe_walk ns.last_slot bix t) default).hv = 0 := by
  obtain ⟨m, hm⟩ := exp_of_pow2_mask ns.last_slot hpow
  have hex : ∃ b ∈ ns.buckets, ¬ (decide (b.hv ≠ 0)) = true := by
    by_contra hall
    push_neg at hall
    have : hv_claimed_count ns = ns.buckets.length := by
      rw [hv_claimed_count, List.countP_eq_length.mpr hall]
    omega
  obtain ⟨b0, hmem, hb0⟩ := hex
  have hb0z : b0.hv = 0 := by simpa using hb0
  obtain ⟨j0, hj0len, hj0⟩ := List.getElem_of_mem hmem
  have hj0D : ns.buckets.getD j0 default = b0 := by
    rw [List.getD_eq_getElem?_getD, List.getElem?_eq_getElem hj0len, hj0]
    rfl
  have hM : ns.last_slot = 2 ^ m - 1 := by omega
  have hj0m : j0 < 2 ^ m := by
    rw [hlen] at hj0len
    omega
  have hpos : 0 < 2 ^ m := Nat.two_pow_pos m
  have hbixm : bix < 2 ^ m := by omega
  refine ⟨(j0 + 2 ^ m - bix) % 2 ^ m, ?_, ?_⟩
  · have := Nat.mod_lt (j0 + 2 ^ m - bix) hpos
    omega
  · rw [hM, probe_walk_mod _ bix (by omega)]
    rw [Nat.add_mod_mod]
    have harith : bix + (j0 + 2 ^ m - bix) = j0 + 2 ^ m := by omega
    rw [harith, Nat.add_mod_right, Nat.mod_eq_of_lt hj0m, hj0D]
    exact hb0z

theorem probe_ro_hit {s : hihat_store_t} {hv n bix : Nat}
    (h0 : (s.buckets.getD bix default).hv = hv) (hhv : hv ≠ 0) :
    hihat_probe_ro s hv (n + 1) bix = some bix := by
  simp only [hihat_probe_ro]
  rw [h0, if_neg hhv, if_neg (by simp)]

theorem migrate_probe_success {ns : hihat_store_t} {hv : Nat}
    (hlen : ns.buckets.length = ns.last_slot + 1)
    (hnone : ∀ j : Nat, (ns.buckets.getD j default).hv ≠ hv)
    (hhv : hv ≠ 0) :
    ∀ (n bix : Nat), bix ≤ ns.last_slot →
      (∃ t, t < n ∧ (ns.buckets.getD (probe_walk ns.last_slot bix t) default).hv = 0) →
      ∃ j, j ≤ ns.last_slot ∧ (ns.buckets.getD j default).hv = 0 ∧
        hihat_migrate_probe ns hv n bix =
          ({ ns with buckets := ns.buckets.set j { ns.buckets.getD j default with hv := hv } },
            j) ∧
        hihat_probe_ro
          { ns with buckets := ns.buckets.set j { ns.buckets.getD j default with hv := hv } }
          hv n bix = some j := by
  intro n
  induction n with
  | zero =>
    intro bix hb hex
    obtain ⟨t, ht, _⟩ := hex
    omega
  | succ n ih =>
    intro bix hb hex
    by_cases hz : (ns.buckets.getD bix default).hv = 0
    · refine ⟨bix, hb, hz, ?_, ?_⟩
      · simp only [hihat_migrate_probe, if_pos hz]
      · have hblen : bix < ns.buckets.length := by omega
        exact probe_ro_hit (by rw [getD_set_self hblen]) hhv
    · obtain ⟨t, ht, hwalk⟩ := hex
      have ht0 : t ≠ 0 := by
        intro h0
        subst h0
        exact hz hwalk
      have hn0 : n ≠ 0 := by omega
      have hex2 : ∃ t2, t2 < n ∧
          (ns.buckets.getD (probe_walk ns.last_slot ((bix + 1) &&& ns.last_slot) t2)
            default).hv = 0 := by
        refine ⟨t - 1, by omega, ?_⟩
        have hshift : probe_walk ns.last_slot bix t =
            probe_walk ns.last_slot ((bix + 1) &&& ns.last_slot) (t - 1) := by
          obtain ⟨t1, rfl⟩ : ∃ t1, t = t1 + 1 := ⟨t - 1, by omega⟩
          simp only [probe_walk, Nat.add_sub_cancel]
        rw [← hshift]
        exact hwalk
      obtain ⟨j, hj, hjz, hpr, hro⟩ := ih ((bix + 1) &&& ns.last_slot) Nat.and_le_right hex2
      have hjbix : j ≠ bix := by
        intro h
        rw [h] at hjz
        exact hz hjz
      refine ⟨j, hj, hjz, ?_, ?_⟩
      · simp only [hihat_migrate_probe, if_neg hz]
        rw [if_pos (hnone bix), if_neg hn0]
        exact hpr
      · simp only [hihat_probe_ro]
        rw [getD_set_ne hjbix]
        rw [if_neg hz, if_pos (hnone bix)]
        exact hro

theorem probe_ro_set_fresh {ns : hihat_store_t} {hvk : Nat} {u : Nat}
    (hu : (ns.buckets.getD u default).hv = 0) (b2 : hihat_bucket_t)
    (hb2 : b2.hv ≠ hvk) :
    ∀ {n bix jk : Nat}, hihat_probe_ro ns hvk n bix = some jk →
      hihat_probe_ro { ns with buckets := ns.buckets.set u b2 } hvk n bix = some jk := by
  intro n
  induction n with
  | zero => intro bix jk h; simp [hihat_probe_ro] at h
  | succ n ih =>
    intro bix jk h
    simp only [hihat_probe_ro] at h ⊢
    by_cases hbu : bix = u
    · subst hbu
      rw [if_pos hu] at h
      exact absurd h (by simp)
    · rw [getD_set_ne (fun hx => hbu hx.symm)]
      by_cases h0 : (ns.buckets.getD bix default).hv = 0
      · rw [if_pos h0] at h
        exact absurd h (by simp)
      · rw [if_neg h0] at h
        rw [if_neg h0]
        by_cases hk : (ns.buckets.getD bix default).hv ≠ hvk
        · rw [if_pos hk] at h
          rw [if_pos hk]
          exact ih h
        · rw [if_neg hk] at h
          rw [if_neg hk]
          exact h

theorem countP_set_claim {α : Type} (p : α → Bool) (d : α) :
    ∀ (l : List α) (j : Nat) (a : α), j < l.length → p (l.getD j d) = false →
      p a = true → (l.set j a).countP p = l.countP p + 1 := by
  intro l
  induction l with
  | nil => intro j a h; simp at h
  | cons x xs ih =>
    intro j a hlt hpj hpa
    cases j with
    | zero =>
      rw [List.set_cons_zero, List.countP_cons, List.countP_cons]
      simp only [List.getD_cons_zero] at hpj
      rw [hpa, hpj]
      simp
    | succ j =>
      rw [List.set_cons_succ, List.countP_cons, List.countP_cons]
      simp only [List.getD_cons_succ] at hpj
      have := ih j a (by simpa using hlt) hpj hpa
      omega

theorem live_countF_split (epochF : Nat → Nat) :
    ∀ (a i b : Nat), live_countF epochF i (a + b) =
      live_countF epochF i a + live_countF epochF (i + a) b := by
  intro a
  induction a with
  | zero => intro i b; simp [live_countF]
  | succ a ih =>
    intro i b
    have h1 : a + 1 + b = (a + b) + 1 := by omega
    rw [h1]
    simp only [live_countF]
    rw [ih (i + 1) b]
    have h2 : i + 1 + a = i + (a + 1) := by omega
    rw [h2]
    omega

/-! Per-bucket facts about the freeze phase, and the bridges between the
store-level predicates and their indexed forms. -/

theorem and_or_flags_zero {x : Nat}
    (h : x &&& (HIHAT_F_MOVING ||| HIHAT_F_MOVED) = 0) :
    x &&& HIHAT_F_MOVING = 0 ∧ x &&& HIHAT_F_MOVED = 0 := by
  have h2 : x &&& (2 ^ 62 ||| 2 ^ 63) = 0 := h
  have key : ∀ j, j = 62 ∨ j = 63 → x.testBit j = false := by
    intro j hj
    cases hx : x.testBit j
    · rfl
    · exfalso
      have h3 : (x &&& (2 ^ 62 ||| 2 ^ 63)).testBit j = Nat.testBit 0 j := by rw [h2]
      rw [Nat.testBit_and, Nat.testBit_or, hx, Nat.testBit_two_pow, Nat.testBit_two_pow,
        Nat.zero_testBit] at h3
      rcases hj with hj | hj <;> subst hj <;> simp at h3
  exact ⟨nat_and_two_pow_eq_zero (key 62 (Or.inl rfl)),
    nat_and_two_pow_eq_zero (key 63 (Or.inr rfl))⟩

theorem freeze_bucket_hv (b : hihat_bucket_t) : (freeze_bucket b).hv = b.hv := by
  simp only [freeze_bucket]
  split
  · rfl
  · rfl

theorem freeze_bucket_item (b : hihat_bucket_t) :
    (freeze_bucket b).record.item = b.record.item := by
  simp only [freeze_bucket]
  split
  · rfl
  · rfl

theorem freeze_bucket_epoch {b : hihat_bucket_t}
    (h62 : b.record.info &&& HIHAT_F_MOVING = 0) :
    (freeze_bucket b).record.info &&& HIHAT_EPOCH_MASK =
      b.record.info &&& HIHAT_EPOCH_MASK := by
  have hcond : ¬ (b.record.info &&& HIHAT_F_MOVING ≠ 0) := by simp [h62]
  simp only [freeze_bucket, if_neg hcond]
  by_cases hz : b.record.info ≠ 0
  · rw [if_pos hz]
    exact moving_or_mask _
  · rw [if_neg hz]
    have hz2 : b.record.info = 0 := by simpa using hz
    rw [flags_or_mask_zero, hz2, Nat.zero_and]

theorem freeze_bucket_moved_live {b : hihat_bucket_t}
    (h62 : b.record.info &&& HIHAT_F_MOVING = 0)
    (hmask : b.record.info &&& HIHAT_EPOCH_MASK = b.record.info) :
    ((freeze_bucket b).record.info &&& HIHAT_F_MOVED = 0 ↔
      (freeze_bucket b).record.info &&& HIHAT_EPOCH_MASK ≠ 0) := by
  rw [freeze_bucket_epoch h62, hmask]
  have hcond : ¬ (b.record.info &&& HIHAT_F_MOVING ≠ 0) := by simp [h62]
  simp only [freeze_bucket, if_neg hcond]
  by_cases hz : b.record.info ≠ 0
  · rw [if_pos hz, moving_or_moved]
    have hm : b.record.info &&& HIHAT_F_MOVED = 0 := by
      rw [← hmask]
      exact mask_and_flag_zero (by omega) _
    exact ⟨fun _ => hz, fun _ => hm⟩
  · rw [if_neg hz]
    have hz2 : b.record.info = 0 := by simpa using hz
    constructor
    · intro hmv
      rw [moved_or_moved] at hmv
      exact absurd hmv (by decide)
    · intro hep
      exact absurd hz2 (by simpa using hep)

theorem flagsClear_indexed {s : hihat_store_t} (h : FlagsClear s) (j : Nat) :
    (s.buckets.getD j default).record.info &&&
      (HIHAT_F_MOVING ||| HIHAT_F_MOVED) = 0 :=
  getD_pred h (by decide) j

theorem infoBound_indexed {s : hihat_store_t} (h : InfoBound s) (j : Nat) :
    (s.buckets.getD j default).record.info < U64 :=
  getD_pred h (by decide) j

theorem liveHvValid_indexed {s : hihat_store_t} (h : LiveHvValid s) (j : Nat)
    (hl : live_at s j) : (s.buckets.getD j default).hv ≠ 0 :=
  getD_pred h (fun h0 => absurd (by decide :
    (default : hihat_bucket_t).record.info &&& HIHAT_EPOCH_MASK = 0) h0) j hl

theorem live_at_in_range {s : hihat_store_t} {k : Nat} (h : live_at s k) :
    k < s.buckets.length := by
  by_contra hge
  have hd : s.buckets.getD k default = default := getD_of_le (by omega) default
  have h2 : (s.buckets.getD k default).record.info &&& HIHAT_EPOCH_MASK ≠ 0 := h
  rw [hd] at h2
  exact h2 (by decide)

theorem liveHvUnique_indexed {s : hihat_store_t} (h : LiveHvUnique s) :
    ∀ k1 k2, k1 ≠ k2 → live_at s k1 → live_at s k2 →
      (s.buckets.getD k1 default).hv ≠ (s.buckets.getD k2 default).hv := by
  intro k1 k2 hne h1 h2
  have hlt1 : k1 < s.buckets.length := live_at_in_range h1
  have hlt2 : k2 < s.buckets.length := live_at_in_range h2
  have e1 : s.buckets.getD k1 default = s.buckets[k1] := by
    rw [List.getD_eq_getElem?_getD, List.getElem?_eq_getElem hlt1]
    rfl
  have e2 : s.buckets.getD k2 default = s.buckets[k2] := by
    rw [List.getD_eq_getElem?_getD, List.getElem?_eq_getElem hlt2]
    rfl
  have h1e : (s.buckets.getD k1 default).record.info &&& HIHAT_EPOCH_MASK ≠ 0 := h1
  have h2e : (s.buckets.getD k2 default).record.info &&& HIHAT_EPOCH_MASK ≠ 0 := h2
  have hpw : s.buckets.Pairwise (fun a b =>
      a.record.info &&& HIHAT_EPOCH_MASK ≠ 0 → b.record.info &&& HIHAT_EPOCH_MASK ≠ 0 →
        a.hv ≠ b.hv) := h
  rw [List.pairwise_iff_getElem] at hpw
  rcases Nat.lt_or_ge k1 k2 with hlt | hge
  · have hp := hpw k1 k2 hlt1 hlt2 hlt
    rw [← e1, ← e2] at hp
    exact hp h1e h2e
  · have hlt21 : k2 < k1 := by omega
    have hp := hpw k2 k1 hlt2 hlt1 hlt21
    rw [← e1, ← e2] at hp
    exact fun he => hp h2e h1e he.symm

/-! Counting lemmas for the migration. -/

theorem live_count_congr {s1 s2 : hihat_store_t} :
    ∀ (n i : Nat), (∀ k, i ≤ k → k < i + n →
      (s1.buckets.getD k default).record.info &&& HIHAT_EPOCH_MASK =
        (s2.buckets.getD k default).record.info &&& HIHAT_EPOCH_MASK) →
      live_count s1 i n = live_count s2 i n := by
  intro n
  induction n with
  | zero => intro i h; rfl
  | succ n ih =>
    intro i h
    simp only [live_count]
    rw [h i le_rfl (by omega), ih (i + 1) (fun k hk1 hk2 => h k (by omega) (by omega))]

theorem live_countF_eq_live_count (s : hihat_store_t) :
    ∀ (n i : Nat), live_countF
      (fun k => (s.buckets.getD k default).record.info &&& HIHAT_EPOCH_MASK) i n =
      live_count s i n := by
  intro n
  induction n with
  | zero => intro i; rfl
  | succ n ih =>
    intro i
    simp only [live_countF, live_count]
    rw [ih (i + 1)]

theorem migrate_freeze_count : ∀ (n : Nat) (s : hihat_store_t) (nu i : Nat),
    (hihat_migrate_freeze s nu i n).2 = nu + live_count s i n := by
  intro n
  induction n with
  | zero => intro s nu i; rfl
  | succ n ih =>
    intro s nu i
    rw [migrate_freeze_succ, ih]
    have hceq : live_count
        (if (s.buckets.getD i default).record.info &&& HIHAT_F_MOVING ≠ 0 then s
         else { s with buckets := s.buckets.set i (freeze_bucket (s.buckets.getD i default)) })
        (i + 1) n = live_count s (i + 1) n := by
      split
      · rfl
      · exact live_count_congr n (i + 1) (fun k hk _ => by
          show ((s.buckets.set i _).getD k default).record.info &&& _ = _
          rw [getD_set_ne (by omega)])
    rw [hceq]
    simp only [live_count]
    by_cases he : (s.buckets.getD i default).record.info &&& HIHAT_EPOCH_MASK ≠ 0
    · rw [if_pos he, if_pos he]
      omega
    · rw [if_neg he, if_neg he]
      omega

theorem claimed_count_new (sz : Nat) : hv_claimed_count (hihat_a_store_new sz) = 0 := by
  simp only [hv_claimed_count, hihat_a_store_new]
  rw [List.countP_eq_zero]
  intro b hb
  rw [List.eq_of_mem_replicate hb]
  decide

theorem unreserved_new (sz u : Nat) :
    (hihat_a_store_new sz).buckets.getD u default = default := by
  simp only [hihat_a_store_new]
  by_cases h : u < sz
  · rw [List.getD_eq_getElem?_getD, List.getElem?_replicate, if_pos h]
    rfl
  · refine getD_of_le ?_ default
    rw [List.length_replicate]
    omega

/-! Step equations of the copy phase. -/

theorem migrate_copy_skip (s ns : hihat_store_t) (nu i n : Nat)
    (h : (s.buckets.getD i default).record.info &&& HIHAT_F_MOVED ≠ 0) :
    hihat_migrate_copy s ns nu i (n + 1) =
      hihat_migrate_copy s ns
        (if (s.buckets.getD i default).record.info &&& HIHAT_EPOCH_MASK ≠ 0 then nu + 1
         else nu) (i + 1) n := by
  simp only [hihat_migrate_copy, if_pos h]

theorem migrate_copy_move (s ns : hihat_store_t) (nu i n j : Nat)
    (hmv : (s.buckets.getD i default).record.info &&& HIHAT_F_MOVED = 0)
    (hpr : hihat_migrate_probe ns (s.buckets.getD i default).hv (ns.last_slot + 1)
        (hatrack_bucket_index (s.buckets.getD i default).hv ns.last_slot) =
      ({ ns with buckets := ns.buckets.set j { ns.buckets.getD j default with hv := (s.buckets.getD i default).hv } }, j))
    (hjlen : j < ns.buckets.length)
    (hrecz : (ns.buckets.getD j default).record = { item := 0, info := 0 }) :
    hihat_migrate_copy s ns nu i (n + 1) =
      hihat_migrate_copy
        { s with buckets := s.buckets.set i (moved_bucket (s.buckets.getD i default)) }
        { ns with buckets := ns.buckets.set j { hv := (s.buckets.getD i default).hv, record := { item := (s.buckets.getD i default).record.item, info := (s.buckets.getD i default).record.info &&& HIHAT_EPOCH_MASK } } }
        (if (s.buckets.getD i default).record.info &&& HIHAT_EPOCH_MASK ≠ 0 then nu + 1
         else nu)
        (i + 1) n := by
  have hcond : ¬ ((s.buckets.getD i default).record.info &&& HIHAT_F_MOVED ≠ 0) :=
    fun hx => hx hmv
  have hgd2 : (ns.buckets.set j { hv := (s.buckets.getD i default).hv, record := ({ item := 0, info := 0 } : hihat_record_t) }).getD j default =
      { hv := (s.buckets.getD i default).hv, record := ({ item := 0, info := 0 } : hihat_record_t) } :=
    getD_set_self hjlen _ _
  simp only [hihat_migrate_copy, if_neg hcond, hpr, hrecz, hgd2, moved_bucket, List.set_set,
    eq_self_iff_true, ite_true]

/-- Invariant induction over the copy phase: with the source buckets at
unprocessed indices agreeing with the frozen store sf, distinct hashes
among the live buckets, MOVED on exactly the dead frozen buckets, and
room in the partially filled new store, every live bucket of sf ends up
copied into the final new store. -/
theorem migrate_copy_invariant (sf : hihat_store_t)
    (huniq : ∀ k1 k2, k1 ≠ k2 → live_at sf k1 → live_at sf k2 →
      (sf.buckets.getD k1 default).hv ≠ (sf.buckets.getD k2 default).hv)
    (hlive_hv : ∀ k, live_at sf k → (sf.buckets.getD k default).hv ≠ 0) :
    ∀ (n : Nat) (s ns : hihat_store_t) (nu i : Nat),
      i + n = sf.buckets.length →
      (∀ k, i ≤ k → s.buckets.getD k default = sf.buckets.getD k default) →
      (∀ k, i ≤ k → k < sf.buckets.length →
        ((sf.buckets.getD k default).record.info &&& HIHAT_F_MOVED = 0 ↔ live_at sf k)) →
      ns.buckets.length = ns.last_slot + 1 →
      (ns.last_slot + 1) &&& ns.last_slot = 0 →
      (∀ u, (ns.buckets.getD u default).hv = 0 →
        (ns.buckets.getD u default).record = { item := 0, info := 0 }) →
      (∀ k, k < i → live_at sf k → copied_at sf ns k) →
      (∀ k, i ≤ k → live_at sf k →
        ∀ u, (ns.buckets.getD u default).hv ≠ (sf.buckets.getD k default).hv) →
      hv_claimed_count ns + live_countF
          (fun k => (sf.buckets.getD k default).record.info &&& HIHAT_EPOCH_MASK) i n <
        ns.buckets.length →
      ∀ k, live_at sf k →
        copied_at sf (hihat_migrate_copy s ns nu i n).2.1 k := by
  intro n
  induction n with
  | zero =>
    intro s ns nu i hrange hsame hfz hnsl hnsp hunres hdone hfresh hcap k hk
    have hklen : k < sf.buckets.length := live_at_in_range hk
    exact hdone k (by omega) hk
  | succ n ih =>
    intro s ns nu i hrange hsame hfz hnsl hnsp hunres hdone hfresh hcap k hk
    have hiL : i < sf.buckets.length := by omega
    have hsi : s.buckets.getD i default = sf.buckets.getD i default := hsame i le_rfl
    by_cases hmv : (sf.buckets.getD i default).record.info &&& HIHAT_F_MOVED = 0
    · -- the copy loop moves bucket i, which is live
      have hlv : live_at sf i := (hfz i le_rfl hiL).mp hmv
      have hlvu : (sf.buckets.getD i default).record.info &&& HIHAT_EPOCH_MASK ≠ 0 := hlv
      have hhv0 : (sf.buckets.getD i default).hv ≠ 0 := hlive_hv i hlv
      have hcap1 : hv_claimed_count ns + 1 + live_countF
          (fun k2 => (sf.buckets.getD k2 default).record.info &&& HIHAT_EPOCH_MASK) (i + 1) n <
          ns.buckets.length := by
        simp only [live_countF] at hcap
        rw [if_pos hlvu] at hcap
        omega
      have hcc : hv_claimed_count ns < ns.buckets.length := by omega
      obtain ⟨t, ht, htz⟩ := exists_unreserved_hit ns hnsl hnsp hcc
        (hatrack_bucket_index (sf.buckets.getD i default).hv ns.last_slot) Nat.and_le_right
      obtain ⟨j, hjle, hjz, hpr, hro⟩ := migrate_probe_success hnsl
        (fun u => hfresh i le_rfl hlv u) hhv0 (ns.last_slot + 1)
        (hatrack_bucket_index (sf.buckets.getD i default).hv ns.last_slot)
        Nat.and_le_right ⟨t, ht, htz⟩
      have hjlen : j < ns.buckets.length := by omega
      have hrecz : (ns.buckets.getD j default).record = { item := 0, info := 0 } :=
        hunres j hjz
      have hmv2 : (s.buckets.getD i default).record.info &&& HIHAT_F_MOVED = 0 := by
        rw [hsi]
        exact hmv
      have hpr2 : hihat_migrate_probe ns (s.buckets.getD i default).hv (ns.last_slot + 1)
          (hatrack_bucket_index (s.buckets.getD i default).hv ns.last_slot) =
          ({ ns with buckets := ns.buckets.set j { ns.buckets.getD j default with hv := (s.buckets.getD i default).hv } }, j) := by
        rw [hsi]
        exact hpr
      rw [migrate_copy_move s ns nu i n j hmv2 hpr2 hjlen hrecz, hsi]
      set BJ : hihat_bucket_t := { hv := (sf.buckets.getD i default).hv, record := { item := (sf.buckets.getD i default).record.item, info := (sf.buckets.getD i default).record.info &&& HIHAT_EPOCH_MASK } } with hBJ
      refine ih _ _ _ (i + 1) (by omega) ?_ ?_ ?_ ?_ ?_ ?_ ?_ ?_ k hk
      · intro k2 hk2
        show (s.buckets.set i (moved_bucket (sf.buckets.getD i default))).getD k2 default =
          sf.buckets.getD k2 default
        rw [getD_set_ne (show i ≠ k2 by omega)]
        exact hsame k2 (by omega)
      · intro k2 hk2 hk2l
        exact hfz k2 (by omega) hk2l
      · show (ns.buckets.set j BJ).length = ns.last_slot + 1
        rw [List.length_set]
        exact hnsl
      · exact hnsp
      · intro u hu
        have hu2 : ((ns.buckets.set j BJ).getD u default).hv = 0 := hu
        by_cases hij : j = u
        · subst hij
          rw [getD_set_self hjlen] at hu2
          exact absurd hu2 hhv0
        · rw [getD_set_ne hij] at hu2
          show ((ns.buckets.set j BJ).getD u default).record = { item := 0, info := 0 }
          rw [getD_set_ne hij]
          exact hunres u hu2
      · intro k2 hk2 hl2
        rcases Nat.lt_or_ge k2 i with h2 | h2
        · obtain ⟨jk, hrok, hhvk, hreck⟩ := hdone k2 h2 hl2
          have hvkne : (sf.buckets.getD i default).hv ≠ (sf.buckets.getD k2 default).hv :=
            huniq i k2 (by omega) hlv hl2
          have hjkne : j ≠ jk := by
            intro he
            rw [← he, hjz] at hhvk
            exact hlive_hv k2 hl2 hhvk.symm
          refine ⟨jk, ?_, ?_, ?_⟩
          · exact probe_ro_set_fresh hjz BJ hvkne hrok
          · show ((ns.buckets.set j BJ).getD jk default).hv = _
            rw [getD_set_ne hjkne]
            exact hhvk
          · show ((ns.buckets.set j BJ).getD jk default).record = _
            rw [getD_set_ne hjkne]
            exact hreck
        · have hk2i : k2 = i := by omega
          subst hk2i
          refine ⟨j, ?_, ?_, ?_⟩
          · have hcongr := @probe_ro_congr
              { ns with buckets := ns.buckets.set j BJ }
              { ns with buckets := ns.buckets.set j { ns.buckets.getD j default with hv := (sf.buckets.getD k2 default).hv } }
              (sf.buckets.getD k2 default).hv rfl
              (fun u => by
                by_cases hij : j = u
                · subst hij
                  simp only [getD_set_self hjlen, hBJ]
                · simp only [getD_set_ne hij])
            rw [hcongr]
            exact hro
          · show ((ns.buckets.set j BJ).getD j default).hv = (sf.buckets.getD k2 default).hv
            rw [getD_set_self hjlen, hBJ]
          · show ((ns.buckets.set j BJ).getD j default).record = { item := (sf.buckets.getD k2 default).record.item, info := (sf.buckets.getD k2 default).record.info &&& HIHAT_EPOCH_MASK }
            rw [getD_set_self hjlen, hBJ]
      · intro k2 hk2 hl2 u
        show ((ns.buckets.set j BJ).getD u default).hv ≠ (sf.buckets.getD k2 default).hv
        by_cases hij : j = u
        · subst hij
          rw [getD_set_self hjlen]
          exact huniq i k2 (by omega) hlv hl2
        · rw [getD_set_ne hij]
          exact hfresh k2 (by omega) hl2 u
      · have hcnt : hv_claimed_count { ns with buckets := ns.buckets.set j BJ } =
            hv_claimed_count ns + 1 := by
          show (ns.buckets.set j BJ).countP (fun b => decide (b.hv ≠ 0)) =
            ns.buckets.countP (fun b => decide (b.hv ≠ 0)) + 1
          refine countP_set_claim _ default ns.buckets j BJ hjlen ?_ ?_
          · exact decide_eq_false (fun hx => hx hjz)
          · exact decide_eq_true hhv0
        rw [hcnt]
        show hv_claimed_count ns + 1 + live_countF
          (fun k2 => (sf.buckets.getD k2 default).record.info &&& HIHAT_EPOCH_MASK) (i + 1) n <
          (ns.buckets.set j BJ).length
        rw [List.length_set]
        exact hcap1
    · -- bucket i is already MOVED (a dead frozen bucket): the loop skips it
      have hnl : ¬ live_at sf i := fun hl => hmv ((hfz i le_rfl hiL).mpr hl)
      have hcap2 : hv_claimed_count ns + live_countF
          (fun k2 => (sf.buckets.getD k2 default).record.info &&& HIHAT_EPOCH_MASK) (i + 1) n <
          ns.buckets.length := by
        simp only [live_countF] at hcap
        rw [if_neg (show ¬ ((sf.buckets.getD i default).record.info &&& HIHAT_EPOCH_MASK ≠ 0)
          from fun hx => hnl hx)] at hcap
        omega
      rw [migrate_copy_skip s ns nu i n (by rw [hsi]; exact hmv)]
      exact ih s ns _ (i + 1) (by omega)
        (fun k2 hk2 => hsame k2 (by omega))
        (fun k2 hk2 hk2l => hfz k2 (by omega) hk2l)
        hnsl hnsp hunres
        (fun k2 hk2 hl2 => by
          rcases Nat.lt_or_ge k2 i with h2 | h2
          · exact hdone k2 h2 hl2
          · have hk2i : k2 = i := by omega
            rw [hk2i] at hl2
            exact absurd hl2 hnl)
        (fun k2 hk2 hl2 => hfresh k2 (by omega) hl2)
        hcap2 k hk

theorem copied_at_congr {sf ns1 ns2 : hihat_store_t} (hb : ns1.buckets = ns2.buckets)
    (hl : ns1.last_slot = ns2.last_slot) {k : Nat} (h : copied_at sf ns1 k) :
    copied_at sf ns2 k := by
  obtain ⟨j, h1, h2, h3⟩ := h
  have hcongr := @probe_ro_congr ns1 ns2 (sf.buckets.getD k default).hv hl
    (fun u => by rw [hb])
  refine ⟨j, ?_, ?_, ?_⟩
  · rw [← hl, ← hcongr]
    exact h1
  · rw [← hb]
    exact h2
  · rw [← hb]
    exact h3

theorem migrate_commit_store (self : hihat_store_t) (top : hihat_t)
    (htop : top.store_current = self) :
    (hihat_a_store_migrate self top).1.buckets =
      (hihat_migrate_copy (hihat_migrate_freeze self 0 0 (self.last_slot + 1)).1
        (hihat_a_store_new (hatrack_new_size
          (hihat_migrate_freeze self 0 0 (self.last_slot + 1)).1.last_slot
          (hihat_migrate_freeze self 0 0 (self.last_slot + 1)).2)) 0 0
        ((hihat_migrate_freeze self 0 0 (self.last_slot + 1)).1.last_slot + 1)).2.1.buckets ∧
    (hihat_a_store_migrate self top).1.last_slot =
      (hihat_migrate_copy (hihat_migrate_freeze self 0 0 (self.last_slot + 1)).1
        (hihat_a_store_new (hatrack_new_size
          (hihat_migrate_freeze self 0 0 (self.last_slot + 1)).1.last_slot
          (hihat_migrate_freeze self 0 0 (self.last_slot + 1)).2)) 0 0
        ((hihat_migrate_freeze self 0 0 (self.last_slot + 1)).1.last_slot + 1)).2.1.last_slot := by
  simp only [hihat_a_store_migrate, htop]
  rw [if_neg (fun hx => hx rfl)]
  split
  · exact ⟨rfl, rfl⟩
  · exact ⟨rfl, rfl⟩

/-- C2: after a migration commits (the migrating thread observed the
current store), every bucket that was live in the old store — record
with non-zero epoch bits — exists in the new store with the same item
pointer and the same epoch bits.  The hypotheses say the old store is
well-formed: correct geometry, no MOVING/MOVED flags between
operations, info words within 64 bits, live buckets sit in claimed
slots, and no two live buckets share a hash. -/
theorem claim_C2_migration_preserves_live (self : hihat_store_t) (top : hihat_t)
    (hwf : StoreWF self) (hfc : FlagsClear self) (hib : InfoBound self)
    (hlv : LiveHvValid self) (hlu : LiveHvUnique self)
    (htop : top.store_current = self) (k : Nat)
    (hk : (self.buckets.getD k default).record.info &&& HIHAT_EPOCH_MASK ≠ 0) :
    ∃ j, j ≤ (hihat_a_store_migrate self top).1.last_slot ∧
      ((hihat_a_store_migrate self top).1.buckets.getD j default).hv =
        (self.buckets.getD k default).hv ∧
      ((hihat_a_store_migrate self top).1.buckets.getD j default).record.item =
        (self.buckets.getD k default).record.item ∧
      ((hihat_a_store_migrate self top).1.buckets.getD j default).record.info &&&
          HIHAT_EPOCH_MASK =
        (self.buckets.getD k default).record.info &&& HIHAT_EPOCH_MASK := by
  have hlen : self.buckets.length = self.last_slot + 1 := hwf.1
  set SF := (hihat_migrate_freeze self 0 0 (self.last_slot + 1)).1 with hSFdef
  set nuF := (hihat_migrate_freeze self 0 0 (self.last_slot + 1)).2 with hnuFdef
  set NS := hatrack_new_size SF.last_slot nuF with hNSdef
  have hsfbucket : ∀ j2 : Nat, SF.buckets.getD j2 default =
      (if j2 < self.buckets.length then freeze_bucket (self.buckets.getD j2 default)
       else default) := by
    intro j2
    rw [hSFdef, migrate_freeze_bucket]
    by_cases hj2 : j2 < self.buckets.length
    · rw [if_pos ⟨by omega, by omega, hj2⟩, if_pos hj2]
    · rw [if_neg (fun hx => hj2 hx.2.2), if_neg hj2]
      exact getD_of_le (by omega) default
  have hsflen : SF.buckets.length = self.buckets.length :=
    migrate_freeze_length (self.last_slot + 1) self 0 0
  have hsfls : SF.last_slot = self.last_slot :=
    migrate_freeze_last_slot (self.last_slot + 1) self 0 0
  have hflags : ∀ j2 : Nat,
      (self.buckets.getD j2 default).record.info &&& HIHAT_F_MOVING = 0 ∧
      (self.buckets.getD j2 default).record.info &&& HIHAT_F_MOVED = 0 :=
    fun j2 => and_or_flags_zero (flagsClear_indexed hfc j2)
  have hmaskj : ∀ j2 : Nat,
      (self.buckets.getD j2 default).record.info &&& HIHAT_EPOCH_MASK =
      (self.buckets.getD j2 default).record.info :=
    fun j2 => mask_of_flags_clear (hflags j2).1 (hflags j2).2 (infoBound_indexed hib j2)
  have hhv_eq : ∀ j2 : Nat,
      (SF.buckets.getD j2 default).hv = (self.buckets.getD j2 default).hv := by
    intro j2
    rw [hsfbucket j2]
    by_cases hj2 : j2 < self.buckets.length
    · rw [if_pos hj2, freeze_bucket_hv]
    · rw [if_neg hj2, getD_of_le (show self.buckets.length ≤ j2 by omega) default]
  have hitem_eq : ∀ j2 : Nat,
      (SF.buckets.getD j2 default).record.item =
        (self.buckets.getD j2 default).record.item := by
    intro j2
    rw [hsfbucket j2]
    by_cases hj2 : j2 < self.buckets.length
    · rw [if_pos hj2, freeze_bucket_item]
    · rw [if_neg hj2, getD_of_le (show self.buckets.length ≤ j2 by omega) default]
  have hep_eq : ∀ j2 : Nat,
      (SF.buckets.getD j2 default).record.info &&& HIHAT_EPOCH_MASK =
        (self.buckets.getD j2 default).record.info &&& HIHAT_EPOCH_MASK := by
    intro j2
    rw [hsfbucket j2]
    by_cases hj2 : j2 < self.buckets.length
    · rw [if_pos hj2, freeze_bucket_epoch (hflags j2).1]
    · rw [if_neg hj2, getD_of_le (show self.buckets.length ≤ j2 by omega) default]
  have hlive_iff : ∀ j2 : Nat, live_at SF j2 ↔ live_at self j2 := by
    intro j2
    show ((SF.buckets.getD j2 default).record.info &&& HIHAT_EPOCH_MASK ≠ 0) ↔
      ((self.buckets.getD j2 default).record.info &&& HIHAT_EPOCH_MASK ≠ 0)
    rw [hep_eq j2]
  have huniqSF : ∀ k1 k2, k1 ≠ k2 → live_at SF k1 → live_at SF k2 →
      (SF.buckets.getD k1 default).hv ≠ (SF.buckets.getD k2 default).hv := by
    intro k1 k2 hne h1 h2
    rw [hhv_eq k1, hhv_eq k2]
    exact liveHvUnique_indexed hlu k1 k2 hne ((hlive_iff k1).mp h1) ((hlive_iff k2).mp h2)
  have hlivehvSF : ∀ k2, live_at SF k2 → (SF.buckets.getD k2 default).hv ≠ 0 := by
    intro k2 h2
    rw [hhv_eq k2]
    exact liveHvValid_indexed hlv k2 ((hlive_iff k2).mp h2)
  have hfzSF : ∀ k2, 0 ≤ k2 → k2 < SF.buckets.length →
      ((SF.buckets.getD k2 default).record.info &&& HIHAT_F_MOVED = 0 ↔ live_at SF k2) := by
    intro k2 _ hk2l
    have hk2self : k2 < self.buckets.length := by omega
    have hb2 : SF.buckets.getD k2 default = freeze_bucket (self.buckets.getD k2 default) := by
      rw [hsfbucket k2, if_pos hk2self]
    show (SF.buckets.getD k2 default).record.info &&& HIHAT_F_MOVED = 0 ↔
      (SF.buckets.getD k2 default).record.info &&& HIHAT_EPOCH_MASK ≠ 0
    rw [hb2]
    exact freeze_bucket_moved_live (hflags k2).1 (hmaskj k2)
  have hNS1 : 64 ≤ NS := new_size_ge SF.last_slot nuF
  obtain ⟨m, hm⟩ := new_size_pow2 SF.last_slot nuF
  have hcov : nuF ≤ hatrack_compute_table_threshold NS := new_size_covers SF.last_slot nuF
  have hnuF : nuF = live_count self 0 (self.last_slot + 1) := by
    rw [hnuFdef, migrate_freeze_count, Nat.zero_add]
  have hlcSF : live_count SF 0 (self.last_slot + 1) = live_count self 0 (self.last_slot + 1) :=
    live_count_congr (self.last_slot + 1) 0 (fun k2 _ _ => hep_eq k2)
  have hrange0 : 0 + (SF.last_slot + 1) = SF.buckets.length := by
    rw [hsfls, hsflen, hlen]
    omega
  have hns0len : (hihat_a_store_new NS).buckets.length =
      (hihat_a_store_new NS).last_slot + 1 := by
    show (List.replicate NS default).length = NS - 1 + 1
    rw [List.length_replicate]
    omega
  have hns0pow : ((hihat_a_store_new NS).last_slot + 1) &&& (hihat_a_store_new NS).last_slot
      = 0 := by
    show (NS - 1 + 1) &&& (NS - 1) = 0
    have h1 : NS - 1 + 1 = NS := by omega
    have hm2 : NS = 2 ^ m := hNSdef.trans hm
    rw [h1, hm2]
    exact two_pow_and_pred m
  have hns0unres : ∀ u, ((hihat_a_store_new NS).buckets.getD u default).hv = 0 →
      ((hihat_a_store_new NS).buckets.getD u default).record = { item := 0, info := 0 } := by
    intro u _
    rw [unreserved_new]
    rfl
  have hfresh0 : ∀ k2, 0 ≤ k2 → live_at SF k2 →
      ∀ u, ((hihat_a_store_new NS).buckets.getD u default).hv ≠
        (SF.buckets.getD k2 default).hv := by
    intro k2 _ hl2 u
    rw [unreserved_new]
    exact fun he => hlivehvSF k2 hl2 he.symm
  have hcap0 : hv_claimed_count (hihat_a_store_new NS) + live_countF
      (fun k2 => (SF.buckets.getD k2 default).record.info &&& HIHAT_EPOCH_MASK) 0
      (SF.last_slot + 1) < (hihat_a_store_new NS).buckets.length := by
    rw [claimed_count_new, live_countF_eq_live_count SF (SF.last_slot + 1) 0, hsfls, hlcSF,
      ← hnuF]
    show 0 + nuF < (List.replicate NS default).length
    rw [List.length_replicate]
    have hth : hatrack_compute_table_threshold NS = NS - NS / 4 := rfl
    rw [hth] at hcov
    omega
  have hkSF : live_at SF k := (hlive_iff k).mpr hk
  have hkey := migrate_copy_invariant SF huniqSF hlivehvSF (SF.last_slot + 1) SF
    (hihat_a_store_new NS) 0 0 hrange0 (fun k2 _ => rfl) hfzSF hns0len hns0pow hns0unres
    (fun k2 hk2 _ => absurd hk2 (by omega)) hfresh0 hcap0 k hkSF
  obtain ⟨hbeq, hlseq⟩ := migrate_commit_store self top htop
  have hkey2 : copied_at SF (hihat_a_store_migrate self top).1 k := by
    refine copied_at_congr ?_ ?_ hkey
    · exact hbeq.symm
    · exact hlseq.symm
  obtain ⟨j, hpj, hhvj, hrecj⟩ := hkey2
  refine ⟨j, ?_, ?_, ?_, ?_⟩
  · exact (probe_ro_some_hv hpj Nat.and_le_right).2
  · rw [hhvj]
    exact hhv_eq k
  · rw [hrecj]
    exact hitem_eq k
  · rw [hrecj]
    show ((SF.buckets.getD k default).record.info &&& HIHAT_EPOCH_MASK) &&& HIHAT_EPOCH_MASK =
      (self.buckets.getD k default).record.info &&& HIHAT_EPOCH_MASK
    rw [mask_idem]
    exact hep_eq k

theorem claim_C2_witness :
    ∃ j, j ≤ (hihat_a_store_migrate table_with_7.store_current table_with_7).1.last_slot ∧
      ((hihat_a_store_migrate table_with_7.store_current table_with_7).1.buckets.getD j default).hv =
        (table_with_7.store_current.buckets.getD 7 default).hv ∧
      ((hihat_a_store_migrate table_with_7.store_current table_with_7).1.buckets.getD j default).record.item =
        (table_with_7.store_current.buckets.getD 7 default).record.item ∧
      ((hihat_a_store_migrate table_with_7.store_current table_with_7).1.buckets.getD j default).record.info &&& HIHAT_EPOCH_MASK =
        (table_with_7.store_current.buckets.getD 7 default).record.info &&& HIHAT_EPOCH_MASK :=
  claim_C2_migration_preserves_live table_with_7.store_current table_with_7
    (by decide) (by decide) (by decide) (by decide) (by decide) rfl 7 (by decide)

/-- When the claiming probe claims a previously unreserved slot, the
read probe on the original store misses: the walk reaches the empty
slot before any occurrence of the hash. -/
theorem probe_claim_fresh_ro {s : hihat_store_t} {hv : Nat} :
    ∀ {n bix : Nat} {st : hihat_store_t} {b : Nat},
      hihat_probe_claim s hv n bix = .found st b → (s.buckets.getD b default).hv = 0 →
      hihat_probe_ro s hv n bix = none := by
  intro n
  induction n with
  | zero => intro bix st b h _; simp [hihat_probe_claim] at h
  | succ n ih =>
    intro bix st b h hb0
    simp only [hihat_probe_claim] at h
    simp only [hihat_probe_ro]
    split at h
    · rename_i hz
      split at h
      · exact absurd h (by simp)
      · rw [if_pos hz]
    · rename_i hz
      split at h
      · rename_i hne
        rw [if_neg hz, if_pos hne]
        exact ih h hb0
      · rename_i hne
        rw [hihat_claim_t.found.injEq] at h
        obtain ⟨hst, hbix⟩ := h
        subst hbix
        exact absurd hb0 hz

/-- C3: a put that completes without migrating returns exactly what the
pre-state get observes — the previously live item with found = true, or
(NULL, false) when no live item existed — and on a replacement the
epoch bits the read probe attaches to the hash are unchanged, so the
item keeps its insertion order. -/
theorem claim_C3_put_returns_prior (self : hihat_store_t) (top : hihat_t)
    (hv v : Nat) (hwf : StoreWF self) (hue : UnreservedEmpty self) (hhv0 : hv ≠ 0)
    (r : Nat) (f : Bool) (top2 : hihat_t)
    (h : hihat_a_store_put 1 self top hv v = some (r, f, top2)) :
    (r, f) = hihat_a_store_get self hv ∧
    (f = true →
      hihat_live_epoch top2.store_current hv = hihat_live_epoch self hv) := by
  simp only [hihat_a_store_put] at h
  rcases hc : hihat_probe_claim self hv (self.last_slot + 1)
      (hatrack_bucket_index hv self.last_slot) with ⟨st, b⟩ | ⟨st⟩
  case migrate =>
    simp only [hc] at h
    simp [hihat_a_store_put] at h
  case found =>
    simp only [hc] at h
    obtain ⟨hls, hthr, hlen2, hble, hhvb, hrec, hframe, hcases⟩ :=
      probe_claim_found_spec hwf.1 hc Nat.and_le_right
    by_cases hmov : (st.buckets.getD b default).record.info &&& HIHAT_F_MOVING ≠ 0
    · rw [if_pos hmov] at h
      simp [hihat_a_store_put] at h
    · rw [if_neg hmov] at h
      have hblen : b < self.buckets.length := by rw [hwf.1]; omega
      by_cases hlive : (st.buckets.getD b default).record.info &&& HIHAT_EPOCH_MASK ≠ 0
      · -- a live record is replaced
        rcases hcases with ⟨hexist, hst⟩ | ⟨hfresh, _, _⟩
        · have hst2 : self = st := hst.symm
          subst hst2
          simp only [if_pos hlive] at h
          rw [Option.some.injEq, Prod.mk.injEq, Prod.mk.injEq] at h
          obtain ⟨hr, hf, htop⟩ := h
          subst htop
          have hro : hihat_probe_ro self hv (self.last_slot + 1)
              (hatrack_bucket_index hv self.last_slot) = some b :=
            probe_claim_ro hwf.1 hhv0 hc Nat.and_le_right
          have hget : hihat_a_store_get self hv =
              ((self.buckets.getD b default).record.item, true) := by
            simp only [hihat_a_store_get, hro]
            rw [if_pos hlive]
          constructor
          · rw [hget, ← hr]
            have hft : f = true := by
              rw [← hf]
              exact decide_eq_true (not_not_intro hlive)
            rw [hft]
          · intro _
            rw [if_neg (not_not_intro hlive)]
            have hhvs : ∀ j : Nat, ((self.buckets.set b { self.buckets.getD b default with record := { item := v, info := (self.buckets.getD b default).record.info } }).getD j default).hv = (self.buckets.getD j default).hv := by
              intro j
              by_cases hj : j = b
              · subst hj
                rw [getD_set_self hblen]
              · rw [getD_set_ne (fun hx => hj hx.symm)]
            have hpro2 : hihat_probe_ro
                { self with buckets := self.buckets.set b { self.buckets.getD b default with record := { item := v, info := (self.buckets.getD b default).record.info } } }
                hv (self.last_slot + 1) (hatrack_bucket_index hv self.last_slot) = some b := by
              rw [@probe_ro_congr
                { self with buckets := self.buckets.set b { self.buckets.getD b default with record := { item := v, info := (self.buckets.getD b default).record.info } } }
                self hv rfl hhvs]
              exact hro
            simp only [hihat_live_epoch, hpro2, hro]
            rw [getD_set_self hblen]
        · -- a freshly claimed slot holds the empty record, never a live one
          exfalso
          have hz : (st.buckets.getD b default).record = { item := 0, info := 0 } :=
            hrec.trans (hue _ (getD_mem hblen default) hfresh)
          rw [hz] at hlive
          exact hlive (by decide)
      · -- no live record: put installs a fresh item and reports (NULL, false)
        simp only [if_neg hlive] at h
        rw [Option.some.injEq, Prod.mk.injEq, Prod.mk.injEq] at h
        obtain ⟨hr, hf, htop⟩ := h
        have hffalse : f = false := by
          rw [← hf]
          exact decide_eq_false (not_not_intro hlive)
        constructor
        · rcases hcases with ⟨hexist, hst⟩ | ⟨hfresh, _, _⟩
          · have hst2 : self = st := hst.symm
            subst hst2
            have hro : hihat_probe_ro self hv (self.last_slot + 1)
                (hatrack_bucket_index hv self.last_slot) = some b :=
              probe_claim_ro hwf.1 hhv0 hc Nat.and_le_right
            have hget : hihat_a_store_get self hv = (0, false) := by
              simp only [hihat_a_store_get, hro]
              rw [if_neg hlive]
            rw [hget, ← hr, hffalse]
          · have hro : hihat_probe_ro self hv (self.last_slot + 1)
                (hatrack_bucket_index hv self.last_slot) = none :=
              probe_claim_fresh_ro hc hfresh
            have hget : hihat_a_store_get self hv = (0, false) := by
              simp only [hihat_a_store_get, hro]
            rw [hget, ← hr, hffalse]
        · intro hft
          rw [hft] at hffalse
          exact absurd hffalse (by decide)

theorem claim_C3_witness :
    (11, true) = hihat_a_store_get table_with_7.store_current 7 ∧
    (true = true → hihat_live_epoch c7_topP.store_current 7 =
      hihat_live_epoch table_with_7.store_current 7) :=
  claim_C3_put_returns_prior table_with_7.store_current table_with_7 7 12
    (by decide) (by decide) (by decide) 11 true c7_topP (by decide)

/-- When the read probe finds the hash, the claiming probe stops at the
same slot without modifying the store. -/
theorem probe_ro_claim {s : hihat_store_t} {hv : Nat} :
    ∀ {n bix b : Nat}, hihat_probe_ro s hv n bix = some b →
      hihat_probe_claim s hv n bix = .found s b := by
  intro n
  induction n with
  | zero => intro bix b h; simp [hihat_probe_ro] at h
  | succ n ih =>
    intro bix b h
    simp only [hihat_probe_ro] at h
    simp only [hihat_probe_claim]
    split at h
    · exact absurd h (by simp)
    · rename_i hz
      split at h
      · rename_i hne
        rw [if_neg hz, if_pos hne]
        exact ih h
      · rename_i hne
        rw [Option.some.injEq] at h
        subst h
        rw [if_neg hz, if_neg hne]

/-- C8: an add that completes without migrating fails exactly when a
live value for the hash already exists, and on failure the table is
unchanged; on success the value is installed live, and a second
identical add fails and leaves the table as the first add left it. -/
theorem claim_C8_add_fails_iff_live (self : hihat_store_t) (top : hihat_t) (hv v : Nat)
    (hwf : StoreWF self) (hue : UnreservedEmpty self) (hfc : FlagsClear self)
    (hib : InfoBound self) (hhv0 : hv ≠ 0)
    (hne1 : top.next_epoch ≠ 0) (hne2 : top.next_epoch < 2 ^ 62)
    (f : Bool) (top2 : hihat_t)
    (h : hihat_a_store_add 1 self top hv v = some (f, top2)) :
    (f = false ↔ (hihat_a_store_get self hv).2 = true) ∧
    (f = false → top2 = { top with store_current := self }) ∧
    (f = true → hihat_a_get top2 hv = (v, true) ∧
      hihat_a_store_add 1 top2.store_current top2 hv v = some (false, top2)) := by
  simp only [hihat_a_store_add] at h
  rcases hc : hihat_probe_claim self hv (self.last_slot + 1)
      (hatrack_bucket_index hv self.last_slot) with ⟨st, b⟩ | ⟨st⟩
  case migrate =>
    simp only [hc] at h
    simp [hihat_a_store_add] at h
  case found =>
    simp only [hc] at h
    obtain ⟨hls, hthr, hlen2, hble, hhvb, hrec, hframe, hcases⟩ :=
      probe_claim_found_spec hwf.1 hc Nat.and_le_right
    have hblen : b < self.buckets.length := by rw [hwf.1]; omega
    have hmask_b : (self.buckets.getD b default).record.info &&& HIHAT_EPOCH_MASK =
        (self.buckets.getD b default).record.info :=
      mask_of_flags_clear (and_or_flags_zero (flagsClear_indexed hfc b)).1
        (and_or_flags_zero (flagsClear_indexed hfc b)).2 (infoBound_indexed hib b)
    by_cases hinfo : (st.buckets.getD b default).record.info ≠ 0
    · -- a non-empty record sits in the hash slot: add fails
      have hstself : self = st := by
        rcases hcases with ⟨_, hst⟩ | ⟨hfresh, _, _⟩
        · exact hst.symm
        · exfalso
          have hz : (st.buckets.getD b default).record = { item := 0, info := 0 } :=
            hrec.trans (hue _ (getD_mem hblen default) hfresh)
          rw [hz] at hinfo
          exact hinfo rfl
      subst hstself
      have hmovfalse : ¬ ((self.buckets.getD b default).record.info &&& HIHAT_F_MOVING ≠ 0) :=
        fun hx => hx (and_or_flags_zero (flagsClear_indexed hfc b)).1
      rw [if_neg hmovfalse, if_pos hinfo, Option.some.injEq, Prod.mk.injEq] at h
      obtain ⟨hf, htop2⟩ := h
      have hro : hihat_probe_ro self hv (self.last_slot + 1)
          (hatrack_bucket_index hv self.last_slot) = some b :=
        probe_claim_ro hwf.1 hhv0 hc Nat.and_le_right
      have hlive : (self.buckets.getD b default).record.info &&& HIHAT_EPOCH_MASK ≠ 0 := by
        rw [hmask_b]
        exact hinfo
      have hget : hihat_a_store_get self hv =
          ((self.buckets.getD b default).record.item, true) := by
        simp only [hihat_a_store_get, hro]
        rw [if_pos hlive]
      refine ⟨?_, ?_, ?_⟩
      · rw [hget]
        exact ⟨fun _ => rfl, fun _ => hf.symm⟩
      · intro _
        exact htop2.symm
      · intro hft
        rw [← hf] at hft
        exact absurd hft (by decide)
    · -- the hash slot holds the empty record: add installs the value
      have hz : (st.buckets.getD b default).record.info = 0 := by
        by_contra hx
        exact hinfo hx
      rw [if_neg (show ¬ ((st.buckets.getD b default).record.info &&& HIHAT_F_MOVING ≠ 0)
          from by rw [hz]; simp), if_neg hinfo, Option.some.injEq, Prod.mk.injEq] at h
      obtain ⟨hf, htop2⟩ := h
      have hro : hihat_probe_ro st hv (self.last_slot + 1)
          (hatrack_bucket_index hv self.last_slot) = some b :=
        probe_claim_ro hwf.1 hhv0 hc Nat.and_le_right
      have hgetfalse : (hihat_a_store_get self hv).2 = false := by
        rcases hcases with ⟨_, hst⟩ | ⟨hfresh, _, _⟩
        · have hst2 : self = st := hst.symm
          subst hst2
          have hdead : ¬ ((self.buckets.getD b default).record.info &&&
              HIHAT_EPOCH_MASK ≠ 0) := by
            rw [hmask_b]
            exact hinfo
          simp only [hihat_a_store_get, hro]
          rw [if_neg hdead]
        · have hron : hihat_probe_ro self hv (self.last_slot + 1)
              (hatrack_bucket_index hv self.last_slot) = none :=
            probe_claim_fresh_ro hc hfresh
          simp only [hihat_a_store_get, hron]
      refine ⟨?_, ?_, ?_⟩
      · constructor
        · intro hx
          rw [← hf] at hx
          exact absurd hx (by decide)
        · intro hx
          rw [hgetfalse] at hx
          exact absurd hx (by decide)
      · intro hx
        rw [← hf] at hx
        exact absurd hx (by decide)
      · intro _
        have hstlen : st.buckets.length = self.buckets.length := hlen2
        have hblen2 : b < st.buckets.length := by omega
        have hro2 : hihat_probe_ro st hv (st.last_slot + 1)
            (hatrack_bucket_index hv st.last_slot) = some b := by
          rw [hls]
          exact hro
      -- the installed record is live because the epoch is a nonzero value
      -- below the flag bits
        have hmaskne : ({ item := v, info := top.next_epoch } : hihat_record_t).info &&& HIHAT_EPOCH_MASK ≠ 0 := by
          show top.next_epoch &&& HIHAT_EPOCH_MASK ≠ 0
          rw [lt_mask_and_mask hne2]
          exact hne1
        have hget2 := get_after_record_set hro2 hblen2 { item := v, info := top.next_epoch }
        rw [if_pos hmaskne] at hget2
        constructor
        · show hihat_a_store_get top2.store_current hv = (v, true)
          rw [← htop2]
          exact hget2
        · -- the second add probes to the same slot and finds the record
          have hhvs : ∀ j : Nat, (((st.buckets.set b { st.buckets.getD b default with record := { item := v, info := top.next_epoch } })).getD j default).hv = (st.buckets.getD j default).hv := by
            intro j
            by_cases hj : j = b
            · subst hj
              rw [getD_set_self hblen2]
            · rw [getD_set_ne (fun hx => hj hx.symm)]
          have hro3 : hihat_probe_ro
              { st with buckets := st.buckets.set b { st.buckets.getD b default with record := { item := v, info := top.next_epoch } } }
              hv (st.last_slot + 1) (hatrack_bucket_index hv st.last_slot) = some b := by
            rw [@probe_ro_congr
              { st with buckets := st.buckets.set b { st.buckets.getD b default with record := { item := v, info := top.next_epoch } } }
              st hv rfl hhvs]
            exact hro2
          have hclaim2 := probe_ro_claim hro3
          rw [← htop2]
          simp only [hihat_a_store_add, hclaim2]
          rw [getD_set_self hblen2]
          rw [if_neg (show ¬ (({ st.buckets.getD b default with record := { item := v, info := top.next_epoch } } : hihat_bucket_t).record.info &&& HIHAT_F_MOVING ≠ 0) from
            fun hx => hx (lt_mask_and_flag_zero hne2 (by omega)))]
          rw [if_pos (show ({ st.buckets.getD b default with record := { item := v, info := top.next_epoch } } : hihat_bucket_t).record.info ≠ 0 from hne1)]

theorem claim_C8_witness :
    (true = false ↔ (hihat_a_store_get hihat_a_init.store_current 5).2 = true) ∧
    (true = false → c8_topA = { hihat_a_init with store_current := hihat_a_init.store_current }) ∧
    (true = true → hihat_a_get c8_topA 5 = (9, true) ∧
      hihat_a_store_add 1 c8_topA.store_current c8_topA 5 9 = some (false, c8_topA)) :=
  claim_C8_add_fails_iff_live hihat_a_init.store_current hihat_a_init 5 9
    (by decide) (by decide) (by decide) (by decide) (by decide) (by decide) (by decide)
    true c8_topA (by decide)

theorem countP_congr_pointwise {α : Type} (p q : α → Bool) (d : α) :
    ∀ (l1 l2 : List α), l1.length = l2.length →
      (∀ j, p (l1.getD j d) = q (l2.getD j d)) →
      l1.countP p = l2.countP q := by
  intro l1
  induction l1 with
  | nil =>
    intro l2 hlen _
    cases l2 with
    | nil => rfl
    | cons y ys => simp at hlen
  | cons x xs ih =>
    intro l2 hlen hpt
    cases l2 with
    | nil => simp at hlen
    | cons y ys =>
      rw [List.countP_cons, List.countP_cons,
        ih ys (by simpa using hlen) (fun j => by
          have hj := hpt (j + 1)
          simpa [List.getD_cons_succ] using hj)]
      have h0 := hpt 0
      simp only [List.getD_cons_zero] at h0
      rw [h0]

/-- C4: in an execution that completes without migrating, a fresh
insertion (empty or tombstone to live) consumes exactly one new epoch —
the record is installed with the old next_epoch and the counter is
advanced by one, so afterwards exactly one bucket carries that epoch;
an update to an already-live bucket consumes none.  The source performs
the advance with a plain increment rather than the fetch_add named in
the spec, which is indistinguishable in a sequential execution. -/
theorem claim_C4_fresh_insert_epoch (self : hihat_store_t) (top : hihat_t) (hv v : Nat)
    (hwf : StoreWF self) (hue : UnreservedEmpty self) (hhv0 : hv ≠ 0)
    (hne1 : top.next_epoch ≠ 0) (hne2 : top.next_epoch < 2 ^ 62)
    (hbelow : ∀ bk ∈ self.buckets, bk.record.info &&& HIHAT_EPOCH_MASK < top.next_epoch) :
    (∀ r f top2, hihat_a_store_put 1 self top hv v = some (r, f, top2) →
      (f = true → top2.next_epoch = top.next_epoch) ∧
      (f = false → top2.next_epoch = (top.next_epoch + 1) % U64 ∧
        top2.store_current.buckets.countP
          (fun bk => decide (bk.record.info &&& HIHAT_EPOCH_MASK = top.next_epoch)) = 1)) ∧
    (∀ f top2, hihat_a_store_add 1 self top hv v = some (f, top2) →
      (f = false → top2.next_epoch = top.next_epoch) ∧
      (f = true → top2.next_epoch = (top.next_epoch + 1) % U64 ∧
        top2.store_current.buckets.countP
          (fun bk => decide (bk.record.info &&& HIHAT_EPOCH_MASK = top.next_epoch)) = 1)) := by
  have hpre : self.buckets.countP
      (fun bk => decide (bk.record.info &&& HIHAT_EPOCH_MASK = top.next_epoch)) = 0 :=
    List.countP_eq_zero.mpr (fun bk hbk hx =>
      absurd (of_decide_eq_true hx) (hbelow bk hbk).ne)
  constructor
  · intro r f top2 h
    simp only [hihat_a_store_put] at h
    rcases hc : hihat_probe_claim self hv (self.last_slot + 1)
        (hatrack_bucket_index hv self.last_slot) with ⟨st, b⟩ | ⟨st⟩
    case migrate =>
      simp only [hc] at h
      simp [hihat_a_store_put] at h
    case found =>
      simp only [hc] at h
      obtain ⟨hls, hthr, hlen2, hble, hhvb, hrec, hframe, hcases⟩ :=
        probe_claim_found_spec hwf.1 hc Nat.and_le_right
      have hblen : b < self.buckets.length := by rw [hwf.1]; omega
      have hblen2 : b < st.buckets.length := by omega
      have hcnt_st : st.buckets.countP
          (fun bk => decide (bk.record.info &&& HIHAT_EPOCH_MASK = top.next_epoch)) = 0 := by
        rw [countP_congr_pointwise _
          (fun bk => decide (bk.record.info &&& HIHAT_EPOCH_MASK = top.next_epoch)) default
          st.buckets self.buckets hlen2
          (fun j => by rw [probe_claim_records_eq hwf.1 hc Nat.and_le_right j])]
        exact hpre
      by_cases hmov : (st.buckets.getD b default).record.info &&& HIHAT_F_MOVING ≠ 0
      · rw [if_pos hmov] at h
        simp [hihat_a_store_put] at h
      · rw [if_neg hmov] at h
        by_cases hlive : (st.buckets.getD b default).record.info &&& HIHAT_EPOCH_MASK ≠ 0
        · simp only [if_pos hlive] at h
          rw [Option.some.injEq, Prod.mk.injEq, Prod.mk.injEq] at h
          obtain ⟨hr, hf, htop⟩ := h
          subst htop
          rw [if_neg (not_not_intro hlive)]
          refine ⟨fun _ => rfl, fun hff => ?_⟩
          rw [← hf] at hff
          simp at hff
          rw [← List.getD_eq_getElem?_getD] at hff
          exact (hlive hff).elim
        · simp only [if_neg hlive] at h
          rw [Option.some.injEq, Prod.mk.injEq, Prod.mk.injEq] at h
          obtain ⟨hr, hf, htop⟩ := h
          subst htop
          rw [if_pos hlive]
          constructor
          · intro htt
            rw [← hf] at htt
            simp at htt
            rw [← List.getD_eq_getElem?_getD] at htt
            exact (hlive htt).elim
          · intro _
            refine ⟨rfl, ?_⟩
            show (st.buckets.set b { st.buckets.getD b default with record := { item := v, info := top.next_epoch } }).countP
              (fun bk => decide (bk.record.info &&& HIHAT_EPOCH_MASK = top.next_epoch)) = 1
            rw [countP_set_claim _ default st.buckets b _ hblen2 ?_ ?_, hcnt_st]
            · have hz0 : (st.buckets.getD b default).record.info &&& HIHAT_EPOCH_MASK = 0 := by
                by_contra hxx
                exact hlive hxx
              refine decide_eq_false (fun hx => ?_)
              rw [hz0] at hx
              exact hne1 hx.symm
            · exact decide_eq_true (show top.next_epoch &&& HIHAT_EPOCH_MASK = top.next_epoch
                from lt_mask_and_mask hne2)
  · intro f top2 h
    simp only [hihat_a_store_add] at h
    rcases hc : hihat_probe_claim self hv (self.last_slot + 1)
        (hatrack_bucket_index hv self.last_slot) with ⟨st, b⟩ | ⟨st⟩
    case migrate =>
      simp only [hc] at h
      simp [hihat_a_store_add] at h
    case found =>
      simp only [hc] at h
      obtain ⟨hls, hthr, hlen2, hble, hhvb, hrec, hframe, hcases⟩ :=
        probe_claim_found_spec hwf.1 hc Nat.and_le_right
      have hblen : b < self.buckets.length := by rw [hwf.1]; omega
      have hblen2 : b < st.buckets.length := by omega
      have hcnt_st : st.buckets.countP
          (fun bk => decide (bk.record.info &&& HIHAT_EPOCH_MASK = top.next_epoch)) = 0 := by
        rw [countP_congr_pointwise _
          (fun bk => decide (bk.record.info &&& HIHAT_EPOCH_MASK = top.next_epoch)) default
          st.buckets self.buckets hlen2
          (fun j => by rw [probe_claim_records_eq hwf.1 hc Nat.and_le_right j])]
        exact hpre
      by_cases hmov : (st.buckets.getD b default).record.info &&& HIHAT_F_MOVING ≠ 0
      · rw [if_pos hmov] at h
        simp [hihat_a_store_add] at h
      · rw [if_neg hmov] at h
        by_cases hinfo : (st.buckets.getD b default).record.info ≠ 0
        · rw [if_pos hinfo, Option.some.injEq, Prod.mk.injEq] at h
          obtain ⟨hf, htop⟩ := h
          subst htop
          refine ⟨fun _ => rfl, fun htt => ?_⟩
          rw [← hf] at htt
          exact absurd htt (by decide)
        · rw [if_neg hinfo, Option.some.injEq, Prod.mk.injEq] at h
          obtain ⟨hf, htop⟩ := h
          subst htop
          constructor
          · intro hff
            rw [← hf] at hff
            exact absurd hff (by decide)
          · intro _
            refine ⟨rfl, ?_⟩
            show (st.buckets.set b { st.buckets.getD b default with record := { item := v, info := top.next_epoch } }).countP
              (fun bk => decide (bk.record.info &&& HIHAT_EPOCH_MASK = top.next_epoch)) = 1
            rw [countP_set_claim _ default st.buckets b _ hblen2 ?_ ?_, hcnt_st]
            · have hz : (st.buckets.getD b default).record.info = 0 := by
                by_contra hx
                exact hinfo hx
              refine decide_eq_false (fun hx => ?_)
              rw [hz, Nat.zero_and] at hx
              exact hne1 hx.symm
            · exact decide_eq_true (show top.next_epoch &&& HIHAT_EPOCH_MASK = top.next_epoch
                from lt_mask_and_mask hne2)

theorem claim_C4_witness :
    (∀ r f top2, hihat_a_store_put 1 hihat_a_init.store_current hihat_a_init 5 9 =
        some (r, f, top2) →
      (f = true → top2.next_epoch = hihat_a_init.next_epoch) ∧
      (f = false → top2.next_epoch = (hihat_a_init.next_epoch + 1) % U64 ∧
        top2.store_current.buckets.countP
          (fun bk => decide (bk.record.info &&& HIHAT_EPOCH_MASK =
            hihat_a_init.next_epoch)) = 1)) ∧
    (∀ f top2, hihat_a_store_add 1 hihat_a_init.store_current hihat_a_init 5 9 =
        some (f, top2) →
      (f = false → top2.next_epoch = hihat_a_init.next_epoch) ∧
      (f = true → top2.next_epoch = (hihat_a_init.next_epoch + 1) % U64 ∧
        top2.store_current.buckets.countP
          (fun bk => decide (bk.record.info &&& HIHAT_EPOCH_MASK =
            hihat_a_init.next_epoch)) = 1)) :=
  claim_C4_fresh_insert_epoch hihat_a_init.store_current hihat_a_init 5 9
    (by decide) (by decide) (by decide) (by decide) (by decide) (by decide)

/-- C6: view with sort set returns exactly the entries collected from
the live buckets of the store observed at entry (a permutation of the
bucket walk, with the returned count their number), ordered strictly
ascending by sort_epoch; the epochs of the result are therefore
pairwise distinct.  The hypothesis is the table invariant that live
buckets carry pairwise distinct epochs. -/
theorem claim_C6_view_sorted_ascending (top : hihat_t)
    (hdist : (hihat_view_collect top.store_current.buckets).Pairwise
      (fun a b => a.sort_epoch ≠ b.sort_epoch)) :
    (hihat_a_view top true).1.Pairwise (fun a b => a.sort_epoch < b.sort_epoch) ∧
    (hihat_a_view top true).1.Perm (hihat_view_collect top.store_current.buckets) ∧
    (hihat_a_view top true).2 = (hihat_view_collect top.store_current.buckets).length := by
  have hperm : ((hihat_view_collect top.store_current.buckets).mergeSort
      hatrack_quicksort_cmp).Perm (hihat_view_collect top.store_current.buckets) :=
    List.mergeSort_perm _ _
  have hsorted : List.Pairwise (fun a b => hatrack_quicksort_cmp a b = true)
      ((hihat_view_collect top.store_current.buckets).mergeSort hatrack_quicksort_cmp) :=
    List.sorted_mergeSort
      (fun a b c hab hbc => by
        simp only [hatrack_quicksort_cmp, decide_eq_true_eq] at hab hbc ⊢
        omega)
      (fun a b => by
        simp only [hatrack_quicksort_cmp]
        by_cases hab : a.sort_epoch ≤ b.sort_epoch
        · simp [hab]
        · simp [hab]
          omega)
      (hihat_view_collect top.store_current.buckets)
  have hdist2 : List.Pairwise (fun a b : hatrack_view_t => a.sort_epoch ≠ b.sort_epoch)
      ((hihat_view_collect top.store_current.buckets).mergeSort hatrack_quicksort_cmp) :=
    (List.Perm.pairwise_iff (fun hxy => hxy.symm) hperm).mpr hdist
  have hstrict : List.Pairwise (fun a b : hatrack_view_t => a.sort_epoch < b.sort_epoch)
      ((hihat_view_collect top.store_current.buckets).mergeSort hatrack_quicksort_cmp) := by
    refine List.Pairwise.imp ?_ (hsorted.and hdist2)
    intro a b hab
    obtain ⟨h1, h2⟩ := hab
    simp only [hatrack_quicksort_cmp, decide_eq_true_eq] at h1
    omega
  exact ⟨hstrict, hperm, rfl⟩

theorem claim_C6_witness :
    (hihat_a_view c6_top true).1.Pairwise (fun a b => a.sort_epoch < b.sort_epoch) ∧
    (hihat_a_view c6_top true).1.Perm (hihat_view_collect c6_top.store_current.buckets) ∧
    (hihat_a_view c6_top true).2 = (hihat_view_collect c6_top.store_current.buckets).length :=
  claim_C6_view_sorted_ascending c6_top (by decide)

/-- On a store below its threshold, the claiming probe that can reach an
unreserved slot ends in found (possibly stopping earlier at the hash). -/
theorem probe_claim_finds {s : hihat_store_t} {hv : Nat}
    (hroom : s.used_count < s.threshold) :
    ∀ (n bix : Nat),
      (∃ t, t < n ∧ (s.buckets.getD (probe_walk s.last_slot bix t) default).hv = 0) →
      ∃ st b, hihat_probe_claim s hv n bix = .found st b := by
  intro n
  induction n with
  | zero =>
    intro bix hex
    obtain ⟨t, ht, _⟩ := hex
    omega
  | succ n ih =>
    intro bix hex
    simp only [hihat_probe_claim]
    by_cases hz : (s.buckets.getD bix default).hv = 0
    · rw [if_pos hz, if_neg (Nat.not_le.mpr hroom)]
      exact ⟨_, _, rfl⟩
    · rw [if_neg hz]
      by_cases hne : (s.buckets.getD bix default).hv ≠ hv
      · rw [if_pos hne]
        apply ih
        obtain ⟨t, ht, hwalk⟩ := hex
        have ht0 : t ≠ 0 := by
          intro h0
          subst h0
          exact hz hwalk
        refine ⟨t - 1, by omega, ?_⟩
        have hshift : probe_walk s.last_slot bix t =
            probe_walk s.last_slot ((bix + 1) &&& s.last_slot) (t - 1) := by
          obtain ⟨t1, rfl⟩ : ∃ t1, t = t1 + 1 := ⟨t - 1, by omega⟩
          simp only [probe_walk, Nat.add_sub_cancel]
        rw [← hshift]
        exact hwalk
      · rw [if_neg hne]
        exact ⟨_, _, rfl⟩

/-- A put on a well-formed flags-clear store below its threshold always
completes in one pass. -/
theorem put_one_succeeds (self : hihat_store_t) (top : hihat_t) (hv v : Nat)
    (hwf : StoreWF self) (hfc : FlagsClear self)
    (hroom : self.used_count < self.threshold)
    (hcc : hv_claimed_count self < self.buckets.length) :
    ∃ r f top2, hihat_a_store_put 1 self top hv v = some (r, f, top2) := by
  obtain ⟨t, ht, htz⟩ := exists_unreserved_hit self hwf.1 hwf.2 hcc
    (hatrack_bucket_index hv self.last_slot) Nat.and_le_right
  obtain ⟨st, b, hfound⟩ := @probe_claim_finds self hv hroom (self.last_slot + 1)
    (hatrack_bucket_index hv self.last_slot) ⟨t, ht, htz⟩
  obtain ⟨hls, hthr, hlen2, hble, hhvb, hrec, hframe, hcases⟩ :=
    probe_claim_found_spec hwf.1 hfound Nat.and_le_right
  have hmov : ¬ ((st.buckets.getD b default).record.info &&& HIHAT_F_MOVING ≠ 0) := by
    intro hx
    rw [hrec] at hx
    exact hx (and_or_flags_zero (flagsClear_indexed hfc b)).1
  simp only [hihat_a_store_put, hfound]
  rw [if_neg hmov]
  exact ⟨_, _, _, rfl⟩

theorem cex_put_step : ∀ n, hihat_a_store_put (n + 1) cexStore cexTop 200 7 =
    hihat_a_store_put n cexStore cexTop 200 7 := by
  intro n
  have hmig : hihat_probe_claim cexStore 200 (cexStore.last_slot + 1)
      (hatrack_bucket_index 200 cexStore.last_slot) = .migrate cexSt1 := by decide
  have hfix : hihat_a_store_migrate cexSt1 { cexTop with store_current := cexSt1 } =
      (cexStore, cexTop) := by decide
  simp only [hihat_a_store_put, hmig, hfix]

theorem cex_put_none : ∀ fuel, hihat_a_store_put fuel cexStore cexTop 200 7 = none := by
  intro fuel
  induction fuel with
  | zero => rfl
  | succ n ih =>
    rw [cex_put_step n]
    exact ih

/-- C5 counterexample: cexStore is a well-formed, flags-clear store of
64 slots whose 48 buckets are all live, sitting exactly at its
threshold; the key 200 is absent, yet put(200, 7) never completes for
any number of migrate-and-retry rounds, because the spec-modelled size
computation reproduces a same-size store that is again exactly at its
threshold.  This refutes the sentence that an insertion at exactly the
threshold still completes successfully via retry. -/
theorem claim_C5_counterexample :
    cexStore.used_count = cexStore.threshold ∧
    StoreWF cexStore ∧ FlagsClear cexStore ∧ UnreservedEmpty cexStore ∧
    cexTop.store_current = cexStore ∧
    (hihat_a_get cexTop 200).2 = false ∧
    ∀ fuel, hihat_a_put fuel cexTop 200 7 = none :=
  ⟨rfl, by decide, by decide, by decide, rfl, by decide, fun fuel => cex_put_none fuel⟩

/-- C5 amended: when put claims an unreserved slot while used_count has
reached the threshold, it abandons the freshly claimed slot and goes to
migrate (first conjunct, directly from the claiming probe); and the
retry completes — but only under the additional hypothesis that the
migrated store is well-formed with used_count strictly below its
threshold and a free slot, which the spec-modelled size computation
does not guarantee when the table is full of live records. -/
theorem claim_C5_threshold_migrate_amended (self : hihat_store_t) (top : hihat_t)
    (hv v : Nat) (st1 : hihat_store_t)
    (hmig : hihat_probe_claim self hv (self.last_slot + 1)
      (hatrack_bucket_index hv self.last_slot) = .migrate st1)
    (hm1 : StoreWF (hihat_a_store_migrate st1 { top with store_current := st1 }).1)
    (hm2 : FlagsClear (hihat_a_store_migrate st1 { top with store_current := st1 }).1)
    (hm4 : (hihat_a_store_migrate st1 { top with store_current := st1 }).1.used_count <
      (hihat_a_store_migrate st1 { top with store_current := st1 }).1.threshold)
    (hm5 : hv_claimed_count (hihat_a_store_migrate st1 { top with store_current := st1 }).1 <
      (hihat_a_store_migrate st1 { top with store_current := st1 }).1.buckets.length) :
    (∀ bix n, (self.buckets.getD bix default).hv = 0 →
      self.threshold ≤ self.used_count →
      hihat_probe_claim self hv (n + 1) bix =
        .migrate { self with buckets := self.buckets.set bix { self.buckets.getD bix default with hv := hv }, used_count := self.used_count + 1 }) ∧
    ∃ r f top2, hihat_a_store_put 2 self top hv v = some (r, f, top2) := by
  constructor
  · intro bix n hz hthr
    simp only [hihat_probe_claim]
    rw [if_pos hz, if_pos hthr]
  · have hstep : hihat_a_store_put 2 self top hv v =
        hihat_a_store_put 1
          (hihat_a_store_migrate st1 { top with store_current := st1 }).1
          (hihat_a_store_migrate st1 { top with store_current := st1 }).2 hv v := by
      simp only [hihat_a_store_put, hmig]
    rw [hstep]
    exact put_one_succeeds _ _ hv v hm1 hm2 hm4 hm5

theorem claim_C5_witness :
    (∀ bix n, (c5Store.buckets.getD bix default).hv = 0 →
      c5Store.threshold ≤ c5Store.used_count →
      hihat_probe_claim c5Store 7 (n + 1) bix =
        .migrate { c5Store with buckets := c5Store.buckets.set bix { c5Store.buckets.getD bix default with hv := 7 }, used_count := c5Store.used_count + 1 }) ∧
    ∃ r f top2, hihat_a_store_put 2 c5Store c5Top 7 9 = some (r, f, top2) :=
  claim_C5_threshold_migrate_amended c5Store c5Top 7 9 c5St1
    (by decide) (by decide) (by decide) (by decide) (by decide)
